import Mathlib

/-!
Verification development for the btelem lock-free telemetry library.

The definitions below are a shallow embedding of the C sources
(`src/btelem_serve.c`, dense-filter variant, together with
`include/btelem/btelem.h` and `include/btelem/btelem_types.h`).
Machine integers are modelled as `Nat`; every C subtraction is guarded in
the source exactly where it is guarded here, so Nat truncated subtraction
agrees with the C `uint64_t` arithmetic on all reachable states.  The
sequential semantics models one thread at a time; the effect of a
concurrent overwrite on the second `seq` load of the torn-read guard is
captured by an explicit oracle `torn : Nat -> Bool` giving, per cursor
position, whether the re-check `seq2 != seq` fires.
-/

/-- Compile-time constant BTELEM_MAX_PAYLOAD (default 232 bytes). -/
def BTELEM_MAX_PAYLOAD : Nat := 232

/-- Compile-time constant BTELEM_MAX_CLIENTS (default 8 consumer slots). -/
def BTELEM_MAX_CLIENTS : Nat := 8

/-- Compile-time constant BTELEM_MAX_SCHEMA_ENTRIES (default 64). -/
def BTELEM_MAX_SCHEMA_ENTRIES : Nat := 64

/-- Compile-time constant BTELEM_MAX_FIELDS (default 16). -/
def BTELEM_MAX_FIELDS : Nat := 16

/-- Compile-time constant BTELEM_NAME_MAX (default 64). -/
def BTELEM_NAME_MAX : Nat := 64

/-- Compile-time constant BTELEM_DESC_MAX (default 128). -/
def BTELEM_DESC_MAX : Nat := 128

/-- Compile-time constant BTELEM_ENUM_LABEL_MAX (default 32). -/
def BTELEM_ENUM_LABEL_MAX : Nat := 32

/-- Compile-time constant BTELEM_ENUM_MAX_VALUES (default 64). -/
def BTELEM_ENUM_MAX_VALUES : Nat := 64

/-- Compile-time constant BTELEM_BITFIELD_MAX_BITS (default 16). -/
def BTELEM_BITFIELD_MAX_BITS : Nat := 16

/-- Compile-time constant BTELEM_BIT_NAME_MAX (default 32). -/
def BTELEM_BIT_NAME_MAX : Nat := 32

/-- The C expression sizeof(struct btelem_packet_header) = 16. -/
def PACKET_HEADER_SIZE : Nat := 16

/-- The C expression sizeof(struct btelem_entry_header) = 16. -/
def ENTRY_HEADER_SIZE : Nat := 16

/-- The C constant UINT32_MAX. -/
def UINT32_MAX : Nat := 4294967295

/-- One fixed-size ring slot, struct btelem_entry.  The payload array keeps
its stale tail after a shorter write, exactly like the C 232-byte array. -/
structure btelem_entry where
  seq : Nat
  timestamp : Nat
  id : Nat
  payload_size : Nat
  payload : List Nat
deriving Repr, DecidableEq, Inhabited

/-- A fully zeroed slot, as produced by the memset in btelem_init. -/
def zero_entry : btelem_entry :=
  { seq := 0, timestamp := 0, id := 0, payload_size := 0
    payload := List.replicate BTELEM_MAX_PAYLOAD 0 }

/-- struct btelem_ring: head counter plus the slot array. -/
structure btelem_ring where
  head : Nat
  capacity : Nat
  mask : Nat
  entries : List btelem_entry
deriving Repr, DecidableEq, Inhabited

/-- struct btelem_client: per-consumer cursor, dense id filter, drop
counters and the active flag. -/
structure btelem_client where
  cursor : Nat
  filter : List Bool
  filter_active : Bool
  dropped : Nat
  dropped_reported : Nat
  active : Bool
deriving Repr, DecidableEq, Inhabited

/-- struct btelem_enum_def: ordered label list (labels assumed non-NULL;
a NULL label is undefined behaviour in the buffered serialiser). -/
structure btelem_enum_def where
  labels : List (List Nat)
  label_count : Nat
deriving Repr, DecidableEq, Inhabited

/-- struct btelem_bit_def: one named bit sub-field. -/
structure btelem_bit_def where
  name : Option (List Nat)
  start : Nat
  width : Nat
deriving Repr, DecidableEq, Inhabited

/-- struct btelem_bitfield_def. -/
structure btelem_bitfield_def where
  bits : List btelem_bit_def
  bit_count : Nat
deriving Repr, DecidableEq, Inhabited

/-- struct btelem_field_def. Strings are byte lists without the NUL. -/
structure btelem_field_def where
  name : List Nat
  offset : Nat
  size : Nat
  type : Nat
  count : Nat
  enum_def : Option btelem_enum_def
  bitfield_def : Option btelem_bitfield_def
deriving Repr, DecidableEq, Inhabited

/-- struct btelem_schema_entry: one registered descriptor. -/
structure btelem_schema_entry where
  id : Nat
  name : List Nat
  description : Option (List Nat)
  payload_size : Nat
  field_count : Nat
  fields : List btelem_field_def
deriving Repr, DecidableEq, Inhabited

/-- struct btelem_ctx: ring, consumer table, schema registry. -/
structure btelem_ctx where
  ring : btelem_ring
  clients : List btelem_client
  schema : List (Option btelem_schema_entry)
  schema_count : Nat
  endianness : Nat
deriving Repr, DecidableEq, Inhabited

/-- The C helper is_power_of_2: v && !(v & (v - 1)). -/
def is_power_of_2 (v : Nat) : Bool :=
  v != 0 && (v &&& (v - 1)) == 0

/-- btelem_init: zeroed context plus a zeroed ring of entry_count slots;
returns none exactly when the C function returns -1 (non power of two). -/
def btelem_init (entry_count : Nat) : Option btelem_ctx :=
  if is_power_of_2 entry_count then
    some
      { ring :=
          { head := 0, capacity := entry_count, mask := entry_count - 1
            entries := List.replicate entry_count zero_entry }
        clients := List.replicate BTELEM_MAX_CLIENTS default
        schema := List.replicate BTELEM_MAX_SCHEMA_ENTRIES none
        schema_count := 0
        endianness := 0 }
  else none

/-- btelem_register, on an already validated non-null entry pointer. -/
def btelem_register (ctx : btelem_ctx) (entry : btelem_schema_entry) :
    Int × btelem_ctx :=
  if entry.id ≥ BTELEM_MAX_SCHEMA_ENTRIES then (-1, ctx)
  else if entry.payload_size > BTELEM_MAX_PAYLOAD then (-1, ctx)
  else
    (0, { ctx with
            schema := ctx.schema.set entry.id (some entry)
            schema_count :=
              if entry.id ≥ ctx.schema_count then entry.id + 1
              else ctx.schema_count })

/-- The arguments of one BTELEM_LOG invocation: schema id, the value read
from BTELEM_TIMESTAMP, and the payload bytes of the logged struct. -/
structure btelem_log_call where
  id : Nat
  timestamp : Nat
  data : List Nat
deriving Repr, DecidableEq, Inhabited

/-- The BTELEM_LOG macro body (sequential net effect): claim slot by
fetch_add on head, write the entry fields, publish seq = slot + 1.  The
payload copy overwrites the first sizeof(data) bytes of the slot array and
leaves the stale tail, like the C memcpy into the 232-byte array. -/
def BTELEM_LOG (r : btelem_ring) (call : btelem_log_call) : btelem_ring :=
  let slot := r.head
  let i := slot &&& r.mask
  let old := r.entries.getD i zero_entry
  let e : btelem_entry :=
    { seq := slot + 1
      timestamp := call.timestamp
      id := call.id
      payload_size := call.data.length
      payload := call.data ++ old.payload.drop call.data.length }
  { r with head := r.head + 1, entries := r.entries.set i e }

/-- BTELEM_LOG lifted to the context ((ctx)->ring). -/
def btelem_log (ctx : btelem_ctx) (call : btelem_log_call) : btelem_ctx :=
  { ctx with ring := BTELEM_LOG ctx.ring call }

/-- Fold a list of BTELEM_LOG calls over a ring. -/
def apply_logs (r : btelem_ring) (calls : List btelem_log_call) : btelem_ring :=
  calls.foldl BTELEM_LOG r

/-- btelem_client_open (dense-filter variant): find the first inactive
slot, set cursor to the current head, build the dense filter, zero the
drop counters, mark active.  Returns the slot index or -1. -/
def btelem_client_open (ctx : btelem_ctx) (filter_ids : Option (List Nat))
    (filter_count : Nat) : Int × btelem_ctx :=
  match ctx.clients.findIdx? (fun c => !c.active) with
  | none => (-1, ctx)
  | some i =>
      let ids := filter_ids.getD []
      let filt :=
        (List.range filter_count).foldl
          (fun acc f =>
            let fid := ids.getD f 0
            if fid < BTELEM_MAX_SCHEMA_ENTRIES then acc.set fid true else acc)
          (List.replicate BTELEM_MAX_SCHEMA_ENTRIES false)
      let c : btelem_client :=
        { cursor := ctx.ring.head
          filter := filt
          filter_active := filter_ids.isSome && filter_count > 0
          dropped := 0
          dropped_reported := 0
          active := true }
      (Int.ofNat i, { ctx with clients := ctx.clients.set i c })

/-- btelem_client_close: mark the slot inactive; other fields retained. -/
def btelem_client_close (ctx : btelem_ctx) (client_id : Int) : btelem_ctx :=
  if client_id < 0 || client_id ≥ (BTELEM_MAX_CLIENTS : Int) then ctx
  else
    let cid := client_id.toNat
    let c := ctx.clients.getD cid default
    { ctx with clients := ctx.clients.set cid { c with active := false } }

/-- btelem_client_set_filter (dense-filter variant). -/
def btelem_client_set_filter (ctx : btelem_ctx) (client_id : Int)
    (filter_ids : Option (List Nat)) (filter_count : Nat) : btelem_ctx :=
  if client_id < 0 || client_id ≥ (BTELEM_MAX_CLIENTS : Int) then ctx
  else
    let cid := client_id.toNat
    let c := ctx.clients.getD cid default
    let ids := filter_ids.getD []
    let filt :=
      (List.range filter_count).foldl
        (fun acc f =>
          let fid := ids.getD f 0
          if fid < BTELEM_MAX_SCHEMA_ENTRIES then acc.set fid true else acc)
        (List.replicate BTELEM_MAX_SCHEMA_ENTRIES false)
    let c1 := { c with filter := filt
                       filter_active := filter_ids.isSome && filter_count > 0 }
    { ctx with clients := ctx.clients.set cid c1 }

/-- btelem_client_available: pure read.  Returns the available count and
the value written through the dropped out-parameter (none when the C
function leaves the caller's variable untouched). -/
def btelem_client_available (ctx : btelem_ctx) (client_id : Int) :
    Nat × Option Nat :=
  if client_id < 0 || client_id ≥ (BTELEM_MAX_CLIENTS : Int) then (0, none)
  else
    let c := ctx.clients.getD client_id.toNat default
    let head := ctx.ring.head
    if head > c.cursor then
      let oldest := if head > ctx.ring.capacity then head - ctx.ring.capacity else 0
      if c.cursor < oldest then (head - oldest, some (oldest - c.cursor))
      else (head - c.cursor, some 0)
    else (0, none)

/-- Result of the btelem_drain walk: final client state, final callback
state, the emitted counter, and a ghost trace of emit invocations as
(ring position, local copy, non-zero return) triples. -/
structure btelem_drain_res (σ : Type) where
  client : btelem_client
  user : σ
  emitted : Nat
  calls : List (Nat × btelem_entry × Bool)
deriving Repr

/-- The while loop of btelem_drain.  fuel is head - cursor at entry; the
loop advances cursor by one per iteration or breaks, so this fuel is
never exhausted before the guard fails.  torn gives, per position, whether
the second seq load differs from the first (a concurrent overwrite during
the local copy); sequentially it is never true. -/
def btelem_drain_go {σ : Type} (r : btelem_ring) (head : Nat)
    (torn : Nat → Bool) (emit : btelem_entry → σ → σ × Bool) :
    Nat → btelem_client → σ → btelem_drain_res σ
  | 0, c, s => ⟨c, s, 0, []⟩
  | fuel + 1, c, s =>
    if c.cursor < head then
      let e := r.entries.getD (c.cursor &&& r.mask) zero_entry
      if e.seq = c.cursor + 1 then
        if torn c.cursor then
          btelem_drain_go r head torn emit fuel
            { c with dropped := c.dropped + 1, cursor := c.cursor + 1 } s
        else
          let pos := c.cursor
          let c1 := { c with cursor := c.cursor + 1 }
          if c.filter_active && !(c.filter.getD e.id false) then
            btelem_drain_go r head torn emit fuel c1 s
          else
            let es := emit e s
            if es.2 then ⟨c1, es.1, 0, [(pos, e, true)]⟩
            else
              let res := btelem_drain_go r head torn emit fuel c1 es.1
              ⟨res.client, res.user, res.emitted + 1, (pos, e, false) :: res.calls⟩
      else ⟨c, s, 0, []⟩
    else ⟨c, s, 0, []⟩

/-- The overwrite-recovery snippet shared textually by both drain entry
points: recompute oldest and jump the cursor, accounting the skipped
entries as dropped. -/
def overwrite_adjust (r : btelem_ring) (head : Nat) (c : btelem_client) :
    btelem_client :=
  if head > r.capacity then
    if c.cursor < head - r.capacity then
      { c with dropped := c.dropped + ((head - r.capacity) - c.cursor)
               cursor := head - r.capacity }
    else c
  else c

/-- btelem_drain: validation, overwrite recovery, then the walk.  Returns
the C return value, the updated context, the final callback state and the
ghost trace of callback invocations. -/
def btelem_drain {σ : Type} (ctx : btelem_ctx) (client_id : Int)
    (torn : Nat → Bool) (emit : btelem_entry → σ → σ × Bool) (user : σ) :
    Int × btelem_ctx × σ × List (Nat × btelem_entry × Bool) :=
  if client_id < 0 || client_id ≥ (BTELEM_MAX_CLIENTS : Int) then
    (-1, ctx, user, [])
  else
    let cid := client_id.toNat
    let c0 := ctx.clients.getD cid default
    if !c0.active then (-1, ctx, user, [])
    else
      let r := ctx.ring
      let head := r.head
      let c := overwrite_adjust r head c0
      let res := btelem_drain_go r head torn emit (head - c.cursor) c user
      (Int.ofNat res.emitted,
       { ctx with clients := ctx.clients.set cid res.client },
       res.user, res.calls)

/-- An emit callback that collects every entry and never halts. -/
def collect_emit : btelem_entry → List btelem_entry → List btelem_entry × Bool :=
  fun e s => (s ++ [e], false)

/-- The all-false torn oracle: no concurrent producer. -/
def no_torn : Nat → Bool := fun _ => false

/-- The btelem_entry_header record written into the packet's entry table. -/
structure btelem_entry_header where
  id : Nat
  payload_size : Nat
  payload_offset : Nat
  timestamp : Nat
deriving Repr, DecidableEq, Inhabited

/-- The btelem_packet_header record written at the front of the packet. -/
structure btelem_packet_header where
  entry_count : Nat
  flags : Nat
  payload_size : Nat
  dropped : Nat
  reserved : Nat
deriving Repr, DecidableEq, Inhabited

/-- Result of the btelem_drain_packed walk: final client, the entry_count
and payload_offset counters, a ghost table of (ring position, entry
header) pairs in emission order, and the walk's buffer writes as
(byte offset, byte length) events in program order. -/
structure btelem_packed_walk_res where
  client : btelem_client
  entry_count : Nat
  payload_offset : Nat
  table : List (Nat × btelem_entry_header)
  writes : List (Nat × Nat)
deriving Repr

/-- The while loop of btelem_drain_packed.  max_entries16 is the C value
(uint16_t)max_entries; payload_base is the byte offset of the staging
payload area (after the worst-case table); payload_capacity its size.
The sum payload_offset + payload_size never reaches 2^32 because at most
65535 entries of payload_size < 2^16 are packed, so the uint32 addition
in the C guard is modelled without a mod. -/
def btelem_packed_go (r : btelem_ring) (head : Nat) (torn : Nat → Bool)
    (max_entries16 : Nat) (payload_base : Nat) (payload_capacity : Nat) :
    Nat → btelem_client → Nat → Nat → btelem_packed_walk_res
  | 0, c, ec, po => ⟨c, ec, po, [], []⟩
  | fuel + 1, c, ec, po =>
    if c.cursor < head then
      let e := r.entries.getD (c.cursor &&& r.mask) zero_entry
      if e.seq = c.cursor + 1 then
        if torn c.cursor then
          btelem_packed_go r head torn max_entries16 payload_base payload_capacity
            fuel { c with dropped := c.dropped + 1, cursor := c.cursor + 1 } ec po
        else
          let pos := c.cursor
          let c1 := { c with cursor := c.cursor + 1 }
          if c.filter_active && !(c.filter.getD e.id false) then
            btelem_packed_go r head torn max_entries16 payload_base payload_capacity
              fuel c1 ec po
          else if po + e.payload_size > payload_capacity then ⟨c1, ec, po, [], []⟩
          else if ec ≥ max_entries16 then ⟨c1, ec, po, [], []⟩
          else
            let eh : btelem_entry_header :=
              { id := e.id, payload_size := e.payload_size
                payload_offset := po, timestamp := e.timestamp }
            let res := btelem_packed_go r head torn max_entries16 payload_base
              payload_capacity fuel c1 (ec + 1) (po + e.payload_size)
            ⟨res.client, res.entry_count, res.payload_offset,
              (pos, eh) :: res.table,
              (PACKET_HEADER_SIZE + ec * ENTRY_HEADER_SIZE, ENTRY_HEADER_SIZE)
                :: (payload_base + po, e.payload_size) :: res.writes⟩
      else ⟨c, ec, po, [], []⟩
    else ⟨c, ec, po, [], []⟩

/-- Everything observable about one btelem_drain_packed call: the C return
value, the updated context, the packet header written (none when no packet
is emitted), the ghost entry table, and all buffer write events in program
order (walk writes, then the closing memmove, then the header store). -/
structure btelem_packed_out where
  ret : Int
  ctx : btelem_ctx
  pkt : Option btelem_packet_header
  table : List (Nat × btelem_entry_header)
  writes : List (Nat × Nat)
deriving Repr

/-- btelem_drain_packed: validation, overwrite recovery, the single-pass
layout walk, the gap-closing memmove and the header fill. -/
def btelem_drain_packed (ctx : btelem_ctx) (client_id : Int) (buf_size : Nat)
    (torn : Nat → Bool) : btelem_packed_out :=
  if client_id < 0 || client_id ≥ (BTELEM_MAX_CLIENTS : Int) then
    ⟨-1, ctx, none, [], []⟩
  else
    let cid := client_id.toNat
    let c0 := ctx.clients.getD cid default
    if !c0.active then ⟨-1, ctx, none, [], []⟩
    else
      let r := ctx.ring
      let head := r.head
      let c := overwrite_adjust r head c0
      let ctx1 := { ctx with clients := ctx.clients.set cid c }
      if c.cursor ≥ head then ⟨0, ctx1, none, [], []⟩
      else if buf_size < PACKET_HEADER_SIZE then ⟨-1, ctx1, none, [], []⟩
      else
        let available := min (head - c.cursor) r.capacity
        let space_after_hdr := buf_size - PACKET_HEADER_SIZE
        let max_entries := min (space_after_hdr / ENTRY_HEADER_SIZE) available
        if max_entries = 0 then ⟨0, ctx1, none, [], []⟩
        else
          let payload_base := PACKET_HEADER_SIZE + max_entries * ENTRY_HEADER_SIZE
          let payload_capacity := buf_size - PACKET_HEADER_SIZE
                                - max_entries * ENTRY_HEADER_SIZE
          let w := btelem_packed_go r head torn (max_entries % 65536)
            payload_base payload_capacity (head - c.cursor) c 0 0
          let ctx2 := { ctx with clients := ctx.clients.set cid w.client }
          if w.entry_count = 0 then ⟨0, ctx2, none, w.table, w.writes⟩
          else
            let move_writes :=
              if w.entry_count ≠ max_entries then
                [(PACKET_HEADER_SIZE + w.entry_count * ENTRY_HEADER_SIZE,
                  w.payload_offset)]
              else []
            let drop_delta := w.client.dropped - w.client.dropped_reported
            let pkt_dropped := min UINT32_MAX drop_delta
            let c_fin := { w.client with
              dropped_reported := w.client.dropped_reported + pkt_dropped }
            let ctx3 := { ctx with clients := ctx.clients.set cid c_fin }
            let pkt : btelem_packet_header :=
              { entry_count := w.entry_count, flags := 0
                payload_size := w.payload_offset, dropped := pkt_dropped
                reserved := 0 }
            ⟨Int.ofNat (PACKET_HEADER_SIZE
                + w.entry_count * ENTRY_HEADER_SIZE + w.payload_offset),
             ctx3, some pkt, w.table,
             w.writes ++ move_writes ++ [(0, PACKET_HEADER_SIZE)]⟩

/-!  Generic facts about the callback drain walk. -/

/-- The walk leaves every client field except cursor and dropped alone. -/
theorem drain_go_frame {σ : Type} (r : btelem_ring) (head : Nat)
    (torn : Nat → Bool) (emit : btelem_entry → σ → σ × Bool) :
    ∀ (fuel : Nat) (c : btelem_client) (s : σ),
      (btelem_drain_go r head torn emit fuel c s).client.filter = c.filter ∧
      (btelem_drain_go r head torn emit fuel c s).client.filter_active = c.filter_active ∧
      (btelem_drain_go r head torn emit fuel c s).client.dropped_reported = c.dropped_reported ∧
      (btelem_drain_go r head torn emit fuel c s).client.active = c.active := by
  intro fuel
  induction fuel with
  | zero => intro c s; exact ⟨rfl, rfl, rfl, rfl⟩
  | succ n ih =>
      intro c s
      simp only [btelem_drain_go]
      repeat' split
      all_goals first
        | exact ⟨rfl, rfl, rfl, rfl⟩
        | exact ih _ _

/-- The walk never moves the cursor backwards. -/
theorem drain_go_cursor_mono {σ : Type} (r : btelem_ring) (head : Nat)
    (torn : Nat → Bool) (emit : btelem_entry → σ → σ × Bool) :
    ∀ (fuel : Nat) (c : btelem_client) (s : σ),
      c.cursor ≤ (btelem_drain_go r head torn emit fuel c s).client.cursor := by
  intro fuel
  induction fuel with
  | zero => intro c s; exact Nat.le_refl _
  | succ n ih =>
      intro c s
      simp only [btelem_drain_go]
      repeat' split
      all_goals first
        | exact Nat.le_refl _
        | exact Nat.le_succ _
        | (refine le_trans (Nat.le_succ _) ?_
           exact ih { c with cursor := c.cursor + 1, dropped := c.dropped + 1 } _)
        | (refine le_trans (Nat.le_succ _) ?_
           exact ih { c with cursor := c.cursor + 1 } _)

/-- The walk never moves the cursor past head. -/
theorem drain_go_cursor_le {σ : Type} (r : btelem_ring) (head : Nat)
    (torn : Nat → Bool) (emit : btelem_entry → σ → σ × Bool) :
    ∀ (fuel : Nat) (c : btelem_client) (s : σ), c.cursor ≤ head →
      (btelem_drain_go r head torn emit fuel c s).client.cursor ≤ head := by
  intro fuel
  induction fuel with
  | zero => intro c s h; exact h
  | succ n ih =>
      intro c s h
      simp only [btelem_drain_go]
      repeat' split
      all_goals first
        | exact h
        | assumption
        | exact ih _ _ (by assumption)

/-- With no concurrent overwrite, the walk never bumps the drop counter. -/
theorem drain_go_dropped_no_torn {σ : Type} (r : btelem_ring) (head : Nat)
    (emit : btelem_entry → σ → σ × Bool) :
    ∀ (fuel : Nat) (c : btelem_client) (s : σ),
      (btelem_drain_go r head no_torn emit fuel c s).client.dropped = c.dropped := by
  intro fuel
  induction fuel with
  | zero => intro c s; rfl
  | succ n ih =>
      intro c s
      simp only [btelem_drain_go]
      repeat' split
      all_goals first
        | rfl
        | exact ih _ _
        | simp_all [no_torn]

/-- The walk only bumps the drop counter, never lowers it. -/
theorem drain_go_dropped_mono {σ : Type} (r : btelem_ring) (head : Nat)
    (torn : Nat → Bool) (emit : btelem_entry → σ → σ × Bool) :
    ∀ (fuel : Nat) (c : btelem_client) (s : σ),
      c.dropped ≤ (btelem_drain_go r head torn emit fuel c s).client.dropped := by
  intro fuel
  induction fuel with
  | zero => intro c s; exact Nat.le_refl _
  | succ n ih =>
      intro c s
      simp only [btelem_drain_go]
      repeat' split
      all_goals first
        | exact Nat.le_refl _
        | (refine le_trans (Nat.le_succ _) ?_
           exact ih { c with cursor := c.cursor + 1, dropped := c.dropped + 1 } _)
        | exact ih { c with cursor := c.cursor + 1 } _

/-- When the filter is active, every entry handed to the emit callback has
an id the dense filter accepts. -/
theorem drain_go_calls_filter {σ : Type} (r : btelem_ring) (head : Nat)
    (torn : Nat → Bool) (emit : btelem_entry → σ → σ × Bool) :
    ∀ (fuel : Nat) (c : btelem_client) (s : σ), c.filter_active = true →
      ∀ x ∈ (btelem_drain_go r head torn emit fuel c s).calls,
        c.filter.getD x.2.1.id false = true := by
  intro fuel
  induction fuel with
  | zero =>
      intro c s _ x hx
      exact absurd (show x ∈ ([] : List (Nat × btelem_entry × Bool)) from hx)
        (List.not_mem_nil x)
  | succ n ih =>
      intro c s hact x hx
      simp only [btelem_drain_go] at hx
      by_cases h1 : c.cursor < head
      case neg =>
        rw [if_neg h1] at hx
        exact absurd hx (List.not_mem_nil x)
      rw [if_pos h1] at hx
      by_cases h2 : (r.entries.getD (c.cursor &&& r.mask) zero_entry).seq = c.cursor + 1
      case neg =>
        rw [if_neg h2] at hx
        exact absurd hx (List.not_mem_nil x)
      rw [if_pos h2] at hx
      by_cases h3 : torn c.cursor = true
      case pos =>
        rw [if_pos h3] at hx
        exact ih { c with cursor := c.cursor + 1, dropped := c.dropped + 1 } _ hact _ hx
      rw [if_neg h3] at hx
      by_cases h4 : (c.filter_active &&
          !c.filter.getD (r.entries.getD (c.cursor &&& r.mask) zero_entry).id false) = true
      case pos =>
        rw [if_pos h4] at hx
        exact ih { c with cursor := c.cursor + 1 } _ hact _ hx
      rw [if_neg h4] at hx
      have hacc : c.filter.getD
          (r.entries.getD (c.cursor &&& r.mask) zero_entry).id false = true := by
        cases hg : c.filter.getD (r.entries.getD (c.cursor &&& r.mask) zero_entry).id false with
        | true => rfl
        | false => exact absurd (by rw [hact, hg]; rfl) h4
      by_cases h5 : (emit (r.entries.getD (c.cursor &&& r.mask) zero_entry) s).2 = true
      case pos =>
        rw [if_pos h5] at hx
        have hx1 : x ∈ [(c.cursor, r.entries.getD (c.cursor &&& r.mask) zero_entry, true)] := hx
        rw [List.mem_singleton] at hx1
        rw [hx1]
        exact hacc
      rw [if_neg h5] at hx
      have hx1 : x ∈ (c.cursor, r.entries.getD (c.cursor &&& r.mask) zero_entry, false) ::
          (btelem_drain_go r head torn emit n
            { c with cursor := c.cursor + 1 }
            (emit (r.entries.getD (c.cursor &&& r.mask) zero_entry) s).1).calls := hx
      rcases List.mem_cons.mp hx1 with hh | ht
      · rw [hh]
        exact hacc
      · exact ih { c with cursor := c.cursor + 1 } _ hact _ ht

/-- The emitted counter counts exactly the callback invocations that
returned zero; a halting invocation is not counted. -/
theorem drain_go_emitted_eq {σ : Type} (r : btelem_ring) (head : Nat)
    (torn : Nat → Bool) (emit : btelem_entry → σ → σ × Bool) :
    ∀ (fuel : Nat) (c : btelem_client) (s : σ),
      (btelem_drain_go r head torn emit fuel c s).emitted =
      ((btelem_drain_go r head torn emit fuel c s).calls.filter
        (fun x => !x.2.2)).length := by
  intro fuel
  induction fuel with
  | zero => intro c s; rfl
  | succ n ih =>
      intro c s
      simp only [btelem_drain_go]
      repeat' split
      all_goals first
        | rfl
        | exact ih _ _
        | (show _ + 1 = (List.filter _ (_ :: _)).length
           rw [List.filter_cons]
           norm_num
           exact ih _ _)

/-!  Generic facts about the packed drain walk. -/

/-- The packed walk leaves filter, filter_active, dropped_reported and
active alone. -/
theorem packed_go_frame (r : btelem_ring) (head : Nat) (torn : Nat → Bool)
    (me16 pbase pcap : Nat) :
    ∀ (fuel : Nat) (c : btelem_client) (ec po : Nat),
      (btelem_packed_go r head torn me16 pbase pcap fuel c ec po).client.filter = c.filter ∧
      (btelem_packed_go r head torn me16 pbase pcap fuel c ec po).client.filter_active = c.filter_active ∧
      (btelem_packed_go r head torn me16 pbase pcap fuel c ec po).client.dropped_reported = c.dropped_reported ∧
      (btelem_packed_go r head torn me16 pbase pcap fuel c ec po).client.active = c.active := by
  intro fuel
  induction fuel with
  | zero => intro c ec po; exact ⟨rfl, rfl, rfl, rfl⟩
  | succ n ih =>
      intro c ec po
      simp only [btelem_packed_go]
      repeat' split
      all_goals first
        | exact ⟨rfl, rfl, rfl, rfl⟩
        | exact ih _ _ _

/-- The packed walk never moves the cursor backwards. -/
theorem packed_go_cursor_mono (r : btelem_ring) (head : Nat) (torn : Nat → Bool)
    (me16 pbase pcap : Nat) :
    ∀ (fuel : Nat) (c : btelem_client) (ec po : Nat),
      c.cursor ≤ (btelem_packed_go r head torn me16 pbase pcap fuel c ec po).client.cursor := by
  intro fuel
  induction fuel with
  | zero => intro c ec po; exact Nat.le_refl _
  | succ n ih =>
      intro c ec po
      simp only [btelem_packed_go]
      repeat' split
      all_goals first
        | exact Nat.le_refl _
        | exact Nat.le_succ _
        | (refine le_trans (Nat.le_succ _) ?_
           exact ih { c with cursor := c.cursor + 1, dropped := c.dropped + 1 } _ _)
        | (refine le_trans (Nat.le_succ _) ?_
           exact ih { c with cursor := c.cursor + 1 } _ _)

/-- The packed walk never moves the cursor past head. -/
theorem packed_go_cursor_le (r : btelem_ring) (head : Nat) (torn : Nat → Bool)
    (me16 pbase pcap : Nat) :
    ∀ (fuel : Nat) (c : btelem_client) (ec po : Nat), c.cursor ≤ head →
      (btelem_packed_go r head torn me16 pbase pcap fuel c ec po).client.cursor ≤ head := by
  intro fuel
  induction fuel with
  | zero => intro c ec po h; exact h
  | succ n ih =>
      intro c ec po h
      simp only [btelem_packed_go]
      repeat' split
      all_goals first
        | exact h
        | assumption
        | exact ih _ _ _ (by assumption)

/-- With no concurrent overwrite, the packed walk never bumps dropped. -/
theorem packed_go_dropped_no_torn (r : btelem_ring) (head : Nat)
    (me16 pbase pcap : Nat) :
    ∀ (fuel : Nat) (c : btelem_client) (ec po : Nat),
      (btelem_packed_go r head no_torn me16 pbase pcap fuel c ec po).client.dropped = c.dropped := by
  intro fuel
  induction fuel with
  | zero => intro c ec po; rfl
  | succ n ih =>
      intro c ec po
      simp only [btelem_packed_go]
      repeat' split
      all_goals first
        | rfl
        | exact ih _ _ _
        | simp_all [no_torn]

/-- The packed walk only bumps the drop counter. -/
theorem packed_go_dropped_mono (r : btelem_ring) (head : Nat) (torn : Nat → Bool)
    (me16 pbase pcap : Nat) :
    ∀ (fuel : Nat) (c : btelem_client) (ec po : Nat),
      c.dropped ≤ (btelem_packed_go r head torn me16 pbase pcap fuel c ec po).client.dropped := by
  intro fuel
  induction fuel with
  | zero => intro c ec po; exact Nat.le_refl _
  | succ n ih =>
      intro c ec po
      simp only [btelem_packed_go]
      repeat' split
      all_goals first
        | exact Nat.le_refl _
        | (refine le_trans (Nat.le_succ _) ?_
           exact ih { c with cursor := c.cursor + 1, dropped := c.dropped + 1 } _ _)
        | exact ih { c with cursor := c.cursor + 1 } _ _

/-- When the filter is active, every entry header placed in the packet
table has an id the dense filter accepts. -/
theorem packed_go_table_filter (r : btelem_ring) (head : Nat) (torn : Nat → Bool)
    (me16 pbase pcap : Nat) :
    ∀ (fuel : Nat) (c : btelem_client) (ec po : Nat), c.filter_active = true →
      ∀ x ∈ (btelem_packed_go r head torn me16 pbase pcap fuel c ec po).table,
        c.filter.getD x.2.id false = true := by
  intro fuel
  induction fuel with
  | zero => intro c ec po _ x hx; exact absurd hx (List.not_mem_nil x)
  | succ n ih =>
      intro c ec po hact x hx
      simp only [btelem_packed_go] at hx
      by_cases h1 : c.cursor < head
      case neg =>
        rw [if_neg h1] at hx
        exact absurd hx (List.not_mem_nil x)
      rw [if_pos h1] at hx
      by_cases h2 : (r.entries.getD (c.cursor &&& r.mask) zero_entry).seq = c.cursor + 1
      case neg =>
        rw [if_neg h2] at hx
        exact absurd hx (List.not_mem_nil x)
      rw [if_pos h2] at hx
      by_cases h3 : torn c.cursor = true
      case pos =>
        rw [if_pos h3] at hx
        exact ih { c with cursor := c.cursor + 1, dropped := c.dropped + 1 } _ _ hact _ hx
      rw [if_neg h3] at hx
      by_cases h4 : (c.filter_active &&
          !c.filter.getD (r.entries.getD (c.cursor &&& r.mask) zero_entry).id false) = true
      case pos =>
        rw [if_pos h4] at hx
        exact ih { c with cursor := c.cursor + 1 } _ _ hact _ hx
      rw [if_neg h4] at hx
      have hacc : c.filter.getD
          (r.entries.getD (c.cursor &&& r.mask) zero_entry).id false = true := by
        cases hg : c.filter.getD (r.entries.getD (c.cursor &&& r.mask) zero_entry).id false with
        | true => rfl
        | false => exact absurd (by rw [hact, hg]; rfl) h4
      by_cases h5 : po + (r.entries.getD (c.cursor &&& r.mask) zero_entry).payload_size > pcap
      case pos =>
        rw [if_pos h5] at hx
        exact absurd hx (List.not_mem_nil x)
      rw [if_neg h5] at hx
      by_cases h6 : ec ≥ me16
      case pos =>
        rw [if_pos h6] at hx
        exact absurd hx (List.not_mem_nil x)
      rw [if_neg h6] at hx
      have hx1 : x ∈ (c.cursor,
          ({ id := (r.entries.getD (c.cursor &&& r.mask) zero_entry).id
             payload_size := (r.entries.getD (c.cursor &&& r.mask) zero_entry).payload_size
             payload_offset := po
             timestamp := (r.entries.getD (c.cursor &&& r.mask) zero_entry).timestamp } :
            btelem_entry_header)) ::
          (btelem_packed_go r head torn me16 pbase pcap n
            { c with cursor := c.cursor + 1 } (ec + 1)
            (po + (r.entries.getD (c.cursor &&& r.mask) zero_entry).payload_size)).table := hx
      rcases List.mem_cons.mp hx1 with hh | ht
      · rw [hh]
        exact hacc
      · exact ih { c with cursor := c.cursor + 1 } _ _ hact _ ht

/-- Every table position is at least the cursor the walk started from. -/
theorem packed_go_table_pos (r : btelem_ring) (head : Nat) (torn : Nat → Bool)
    (me16 pbase pcap : Nat) :
    ∀ (fuel : Nat) (c : btelem_client) (ec po : Nat),
      ∀ x ∈ (btelem_packed_go r head torn me16 pbase pcap fuel c ec po).table,
        c.cursor ≤ x.1 := by
  intro fuel
  induction fuel with
  | zero => intro c ec po x hx; exact absurd hx (List.not_mem_nil x)
  | succ n ih =>
      intro c ec po x hx
      simp only [btelem_packed_go] at hx
      repeat' split at hx
      all_goals first
        | exact absurd hx (List.not_mem_nil x)
        | (refine le_trans (Nat.le_succ _) ?_
           exact ih { c with cursor := c.cursor + 1, dropped := c.dropped + 1 } _ _ _ hx)
        | (refine le_trans (Nat.le_succ _) ?_
           exact ih { c with cursor := c.cursor + 1 } _ _ _ hx)
        | (rcases List.mem_cons.mp hx with hh | ht
           · rw [hh]
           · refine le_trans (Nat.le_succ _) ?_
             exact ih { c with cursor := c.cursor + 1 } _ _ _ ht)

/-- The final entry_count counter is the initial one plus the number of
table records; each kept entry contributes exactly two write events. -/
theorem packed_go_count (r : btelem_ring) (head : Nat) (torn : Nat → Bool)
    (me16 pbase pcap : Nat) :
    ∀ (fuel : Nat) (c : btelem_client) (ec po : Nat),
      (btelem_packed_go r head torn me16 pbase pcap fuel c ec po).entry_count =
        ec + (btelem_packed_go r head torn me16 pbase pcap fuel c ec po).table.length ∧
      (btelem_packed_go r head torn me16 pbase pcap fuel c ec po).writes.length =
        2 * (btelem_packed_go r head torn me16 pbase pcap fuel c ec po).table.length := by
  intro fuel
  induction fuel with
  | zero => intro c ec po; exact ⟨rfl, rfl⟩
  | succ n ih =>
      intro c ec po
      simp only [btelem_packed_go]
      repeat' split
      all_goals first
        | exact ⟨rfl, rfl⟩
        | exact ih _ _ _
        | (have h := ih { c with cursor := c.cursor + 1 } (ec + 1)
             (po + (r.entries.getD (c.cursor &&& r.mask) zero_entry).payload_size)
           simp only [List.length_cons]
           omega)

/-- Counter invariants of the packed walk: entry_count stays at most the
(uint16_t) max_entries bound and payload_offset stays within the staging
payload capacity. -/
theorem packed_go_inv (r : btelem_ring) (head : Nat) (torn : Nat → Bool)
    (me16 pbase pcap : Nat) :
    ∀ (fuel : Nat) (c : btelem_client) (ec po : Nat),
      ec ≤ me16 → po ≤ pcap →
      (btelem_packed_go r head torn me16 pbase pcap fuel c ec po).entry_count ≤ me16 ∧
      (btelem_packed_go r head torn me16 pbase pcap fuel c ec po).payload_offset ≤ pcap := by
  intro fuel
  induction fuel with
  | zero => intro c ec po hec hpo; exact ⟨hec, hpo⟩
  | succ n ih =>
      intro c ec po hec hpo
      simp only [btelem_packed_go]
      repeat' split
      all_goals first
        | exact ⟨hec, hpo⟩
        | exact ih _ _ _ hec hpo
        | (rename_i hsp hme
           exact ih { c with cursor := c.cursor + 1 } (ec + 1)
             (po + (r.entries.getD (c.cursor &&& r.mask) zero_entry).payload_size)
             (by omega) (by omega))

/-- Every write event of the packed walk ends at or before the end of the
caller buffer pbase + pcap, provided the staging payload area really sits
after a me16-record worst-case table. -/
theorem packed_go_writes_bound (r : btelem_ring) (head : Nat) (torn : Nat → Bool)
    (me16 pbase pcap : Nat)
    (hbase : PACKET_HEADER_SIZE + me16 * ENTRY_HEADER_SIZE ≤ pbase) :
    ∀ (fuel : Nat) (c : btelem_client) (ec po : Nat),
      ∀ x ∈ (btelem_packed_go r head torn me16 pbase pcap fuel c ec po).writes,
        x.1 + x.2 ≤ pbase + pcap := by
  intro fuel
  induction fuel with
  | zero => intro c ec po x hx; exact absurd hx (List.not_mem_nil x)
  | succ n ih =>
      intro c ec po x hx
      simp only [btelem_packed_go] at hx
      by_cases h1 : c.cursor < head
      case neg =>
        rw [if_neg h1] at hx
        exact absurd hx (List.not_mem_nil x)
      rw [if_pos h1] at hx
      by_cases h2 : (r.entries.getD (c.cursor &&& r.mask) zero_entry).seq = c.cursor + 1
      case neg =>
        rw [if_neg h2] at hx
        exact absurd hx (List.not_mem_nil x)
      rw [if_pos h2] at hx
      by_cases h3 : torn c.cursor = true
      case pos =>
        rw [if_pos h3] at hx
        exact ih { c with cursor := c.cursor + 1, dropped := c.dropped + 1 } _ _ _ hx
      rw [if_neg h3] at hx
      by_cases h4 : (c.filter_active &&
          !c.filter.getD (r.entries.getD (c.cursor &&& r.mask) zero_entry).id false) = true
      case pos =>
        rw [if_pos h4] at hx
        exact ih { c with cursor := c.cursor + 1 } _ _ _ hx
      rw [if_neg h4] at hx
      by_cases h5 : po + (r.entries.getD (c.cursor &&& r.mask) zero_entry).payload_size > pcap
      case pos =>
        rw [if_pos h5] at hx
        exact absurd hx (List.not_mem_nil x)
      rw [if_neg h5] at hx
      by_cases h6 : ec ≥ me16
      case pos =>
        rw [if_pos h6] at hx
        exact absurd hx (List.not_mem_nil x)
      rw [if_neg h6] at hx
      have hx1 : x ∈ (PACKET_HEADER_SIZE + ec * ENTRY_HEADER_SIZE, ENTRY_HEADER_SIZE) ::
          (pbase + po, (r.entries.getD (c.cursor &&& r.mask) zero_entry).payload_size) ::
          (btelem_packed_go r head torn me16 pbase pcap n
            { c with cursor := c.cursor + 1 } (ec + 1)
            (po + (r.entries.getD (c.cursor &&& r.mask) zero_entry).payload_size)).writes := hx
      rcases List.mem_cons.mp hx1 with hh | hx2
      · rw [hh]
        show PACKET_HEADER_SIZE + ec * ENTRY_HEADER_SIZE + ENTRY_HEADER_SIZE ≤ pbase + pcap
        have hm : (ec + 1) * ENTRY_HEADER_SIZE ≤ me16 * ENTRY_HEADER_SIZE :=
          Nat.mul_le_mul_right _ (Nat.lt_of_not_le h6)
        have hd : (ec + 1) * ENTRY_HEADER_SIZE = ec * ENTRY_HEADER_SIZE + ENTRY_HEADER_SIZE :=
          Nat.succ_mul _ _
        omega
      rcases List.mem_cons.mp hx2 with hh2 | ht
      · rw [hh2]
        show pbase + po + (r.entries.getD (c.cursor &&& r.mask) zero_entry).payload_size
          ≤ pbase + pcap
        omega
      · exact ih { c with cursor := c.cursor + 1 } _ _ _ ht

/-- When every slot from the cursor to head is committed, the filter is
inactive, no overwrite races the copy and the callback never halts, the
walk emits every entry from cursor to head in ring order. -/
theorem drain_go_complete {σ : Type} (r : btelem_ring) (head : Nat)
    (emit : btelem_entry → σ → σ × Bool)
    (hnh : ∀ e s, (emit e s).2 = false) :
    ∀ (fuel : Nat) (c : btelem_client) (s : σ),
      c.filter_active = false →
      head ≤ c.cursor + fuel →
      (∀ p, c.cursor ≤ p → p < head →
        (r.entries.getD (p &&& r.mask) zero_entry).seq = p + 1) →
      (btelem_drain_go r head no_torn emit fuel c s).calls =
        (List.range' c.cursor (head - c.cursor)).map
          (fun p => (p, r.entries.getD (p &&& r.mask) zero_entry, false)) ∧
      (btelem_drain_go r head no_torn emit fuel c s).client.cursor = max c.cursor head ∧
      (btelem_drain_go r head no_torn emit fuel c s).emitted = head - c.cursor := by
  intro fuel
  induction fuel with
  | zero =>
      intro c s hfa hfuel hcom
      have h0 : head - c.cursor = 0 := by omega
      refine ⟨?_, ?_, ?_⟩
      · simp [btelem_drain_go, h0]
      · show c.cursor = max c.cursor head
        omega
      · show 0 = head - c.cursor
        omega
  | succ n ih =>
      intro c s hfa hfuel hcom
      by_cases h1 : c.cursor < head
      case neg =>
        have h0 : head - c.cursor = 0 := by omega
        rw [btelem_drain_go]
        rw [if_neg h1]
        refine ⟨by simp [h0], ?_, ?_⟩
        · show c.cursor = max c.cursor head
          omega
        · show 0 = head - c.cursor
          omega
      rw [btelem_drain_go, if_pos h1]
      have h2 := hcom c.cursor (Nat.le_refl _) h1
      rw [if_pos h2]
      rw [if_neg (by simp [no_torn])]
      rw [if_neg (by simp [hfa])]
      rw [if_neg (by simp [hnh])]
      have hrec := ih { c with cursor := c.cursor + 1 }
        (emit (r.entries.getD (c.cursor &&& r.mask) zero_entry) s).1
        hfa (by simp; omega) (fun p hp1 hp2 => hcom p (by simp at hp1; omega) hp2)
      have hspan : head - c.cursor = (head - (c.cursor + 1)) + 1 := by omega
      refine ⟨?_, ?_, ?_⟩
      · show (c.cursor, r.entries.getD (c.cursor &&& r.mask) zero_entry, false) ::
            (btelem_drain_go r head no_torn emit n { c with cursor := c.cursor + 1 }
              (emit (r.entries.getD (c.cursor &&& r.mask) zero_entry) s).1).calls = _
        rw [hrec.1, hspan, List.range'_succ]
        rfl
      · show (btelem_drain_go r head no_torn emit n { c with cursor := c.cursor + 1 }
              (emit (r.entries.getD (c.cursor &&& r.mask) zero_entry) s).1).client.cursor
            = max c.cursor head
        rw [hrec.2.1]
        show max (c.cursor + 1) head = max c.cursor head
        omega
      · show (btelem_drain_go r head no_torn emit n { c with cursor := c.cursor + 1 }
              (emit (r.entries.getD (c.cursor &&& r.mask) zero_entry) s).1).emitted + 1
            = head - c.cursor
        rw [hrec.2.2]
        show (head - (c.cursor + 1)) + 1 = head - c.cursor
        omega

/-- Structural well-formedness of a ring as btelem_init builds it: power
of two capacity, mask = capacity - 1, and a full slot array. -/
def ring_wf (r : btelem_ring) : Prop :=
  (∃ k, r.capacity = 2 ^ k) ∧ r.mask = r.capacity - 1 ∧
    r.entries.length = r.capacity

/-- Under ring_wf, the C index expression x & mask is x % capacity. -/
theorem ring_wf_index (r : btelem_ring) (hwf : ring_wf r) (x : Nat) :
    x &&& r.mask = x % r.capacity := by
  obtain ⟨⟨k, hk⟩, hm, _⟩ := hwf
  rw [hm, hk]
  exact Nat.and_pow_two_sub_one_eq_mod x k

/-- BTELEM_LOG bumps head by one and keeps the ring well formed. -/
theorem BTELEM_LOG_shape (r : btelem_ring) (call : btelem_log_call) :
    (BTELEM_LOG r call).head = r.head + 1 ∧
    (BTELEM_LOG r call).capacity = r.capacity ∧
    (BTELEM_LOG r call).mask = r.mask ∧
    (BTELEM_LOG r call).entries.length = r.entries.length := by
  refine ⟨rfl, rfl, rfl, ?_⟩
  show (r.entries.set _ _).length = r.entries.length
  exact List.length_set ..

/-- apply_logs adds one head increment per call and preserves ring_wf. -/
theorem apply_logs_shape (l : List btelem_log_call) :
    ∀ (r : btelem_ring),
      (apply_logs r l).head = r.head + l.length ∧
      (apply_logs r l).capacity = r.capacity ∧
      (apply_logs r l).mask = r.mask ∧
      (apply_logs r l).entries.length = r.entries.length := by
  induction l with
  | nil => intro r; exact ⟨rfl, rfl, rfl, rfl⟩
  | cons x t ih =>
      intro r
      have hstep := BTELEM_LOG_shape r x
      have ht := ih (BTELEM_LOG r x)
      refine ⟨?_, ?_, ?_, ?_⟩
      · show (apply_logs (BTELEM_LOG r x) t).head = r.head + (t.length + 1)
        rw [ht.1, hstep.1]
        omega
      · show (apply_logs (BTELEM_LOG r x) t).capacity = r.capacity
        rw [ht.2.1, hstep.2.1]
      · show (apply_logs (BTELEM_LOG r x) t).mask = r.mask
        rw [ht.2.2.1, hstep.2.2.1]
      · show (apply_logs (BTELEM_LOG r x) t).entries.length = r.entries.length
        rw [ht.2.2.2, hstep.2.2.2]

/-- Two distinct claim values within one lap index distinct slots. -/
theorem mod_ne_of_between (p q cap : Nat) (h1 : p < q) (h2 : q < p + cap) :
    p % cap ≠ q % cap := by
  intro h
  have hdvd : cap ∣ q - p := (Nat.modEq_iff_dvd' (Nat.le_of_lt h1)).mp h
  have hpos : 0 < q - p := by omega
  have := Nat.le_of_dvd hpos hdvd
  omega

/-- A slot whose claim value is within the last lap at the end of a log
sequence is never overwritten by that sequence. -/
theorem apply_logs_preserve (l : List btelem_log_call) :
    ∀ (r : btelem_ring) (p : Nat), ring_wf r →
      p < r.head → r.head + l.length ≤ p + r.capacity →
      (apply_logs r l).entries.getD (p % r.capacity) zero_entry =
        r.entries.getD (p % r.capacity) zero_entry := by
  induction l with
  | nil => intro r p _ _ _; rfl
  | cons x t ih =>
      intro r p hwf hp hbound
      have hwf' : ring_wf (BTELEM_LOG r x) := by
        obtain ⟨hk, hm, hl⟩ := hwf
        have hs := BTELEM_LOG_shape r x
        exact ⟨by rw [hs.2.1]; exact hk, by rw [hs.2.2.1, hs.2.1]; exact hm,
          by rw [hs.2.2.2, hs.2.1]; exact hl⟩
      have hstep : (BTELEM_LOG r x).entries.getD (p % r.capacity) zero_entry =
          r.entries.getD (p % r.capacity) zero_entry := by
        show (r.entries.set (r.head &&& r.mask) _).getD (p % r.capacity) zero_entry = _
        rw [ring_wf_index r hwf r.head]
        have hne : r.head % r.capacity ≠ p % r.capacity := by
          have := mod_ne_of_between p r.head r.capacity hp (by simp at hbound; omega)
          exact this.symm
        simp [List.getD_eq_getElem?_getD, List.getElem?_set_ne hne]
      have hrec := ih (BTELEM_LOG r x) p hwf'
        (by rw [(BTELEM_LOG_shape r x).1]; omega)
        (by rw [(BTELEM_LOG_shape r x).1, (BTELEM_LOG_shape r x).2.1]; simp at hbound; omega)
      show (apply_logs (BTELEM_LOG r x) t).entries.getD (p % r.capacity) zero_entry = _
      have hcapeq : (BTELEM_LOG r x).capacity = r.capacity := rfl
      rw [hcapeq] at hrec
      rw [hrec, hstep]

/-- After a log sequence, every claim value in the final lap owns a
committed slot holding the fields of its log call, with the payload bytes
as the prefix of the slot array. -/
theorem apply_logs_committed (l : List btelem_log_call) :
    ∀ (r : btelem_ring) (p : Nat), ring_wf r →
      r.head ≤ p → p < r.head + l.length → r.head + l.length ≤ p + r.capacity →
      ((apply_logs r l).entries.getD (p % r.capacity) zero_entry).seq = p + 1 ∧
      ((apply_logs r l).entries.getD (p % r.capacity) zero_entry).id =
        (l.getD (p - r.head) default).id ∧
      ((apply_logs r l).entries.getD (p % r.capacity) zero_entry).timestamp =
        (l.getD (p - r.head) default).timestamp ∧
      ((apply_logs r l).entries.getD (p % r.capacity) zero_entry).payload_size =
        (l.getD (p - r.head) default).data.length ∧
      ((apply_logs r l).entries.getD (p % r.capacity) zero_entry).payload.take
          (l.getD (p - r.head) default).data.length =
        (l.getD (p - r.head) default).data := by
  induction l with
  | nil =>
      intro r p _ h1 h2 _
      exfalso
      simp at h2
      omega
  | cons x t ih =>
      intro r p hwf h1 h2 h3
      have hs := BTELEM_LOG_shape r x
      have hwf' : ring_wf (BTELEM_LOG r x) := by
        obtain ⟨hk, hm, hl⟩ := hwf
        exact ⟨by rw [hs.2.1]; exact hk, by rw [hs.2.2.1, hs.2.1]; exact hm,
          by rw [hs.2.2.2, hs.2.1]; exact hl⟩
      by_cases hp : p = r.head
      case pos =>
        subst hp
        have hpres := apply_logs_preserve t (BTELEM_LOG r x) r.head hwf'
          (by rw [hs.1]; omega)
          (by rw [hs.1, hs.2.1]; simp at h3; omega)
        have hcapeq : (BTELEM_LOG r x).capacity = r.capacity := rfl
        rw [hcapeq] at hpres
        have hidx : r.head &&& r.mask = r.head % r.capacity := ring_wf_index r hwf r.head
        have hlt : r.head % r.capacity < r.entries.length := by
          obtain ⟨⟨k, hk⟩, _, hlen⟩ := hwf
          rw [hlen, hk]
          exact Nat.mod_lt _ (Nat.pos_pow_of_pos k (by omega))
        have hwrite : (BTELEM_LOG r x).entries.getD (r.head % r.capacity) zero_entry =
            { seq := r.head + 1
              timestamp := x.timestamp
              id := x.id
              payload_size := x.data.length
              payload := x.data ++
                (r.entries.getD (r.head &&& r.mask) zero_entry).payload.drop x.data.length } := by
          show (r.entries.set (r.head &&& r.mask) _).getD (r.head % r.capacity) zero_entry = _
          rw [hidx]
          simp [List.getD_eq_getElem?_getD, List.getElem?_set_self, hlt]
        have hfin : (apply_logs r (x :: t)).entries.getD (r.head % r.capacity) zero_entry =
            { seq := r.head + 1
              timestamp := x.timestamp
              id := x.id
              payload_size := x.data.length
              payload := x.data ++
                (r.entries.getD (r.head &&& r.mask) zero_entry).payload.drop x.data.length } := by
          show (apply_logs (BTELEM_LOG r x) t).entries.getD (r.head % r.capacity) zero_entry = _
          rw [hpres, hwrite]
        rw [hfin]
        have hz : (x :: t).getD (r.head - r.head) default = x := by
          simp
        refine ⟨rfl, ?_, ?_, ?_, ?_⟩ <;> rw [hz]
        exact List.take_left ..
      case neg =>
        have hrec := ih (BTELEM_LOG r x) p hwf'
          (by rw [hs.1]; omega)
          (by rw [hs.1]; simp at h2; omega)
          (by rw [hs.1, hs.2.1]; simp at h3; omega)
        have hcapeq : (BTELEM_LOG r x).capacity = r.capacity := rfl
        have hheadeq : (BTELEM_LOG r x).head = r.head + 1 := rfl
        rw [hcapeq, hheadeq] at hrec
        have hgd : t.getD (p - (r.head + 1)) default =
            (x :: t).getD (p - r.head) default := by
          have hd : p - r.head = (p - (r.head + 1)) + 1 := by omega
          rw [hd]
          rfl
        rw [hgd] at hrec
        exact hrec

/-- Powers of two pass the is_power_of_2 check. -/
theorem is_power_of_2_pow (k : Nat) : is_power_of_2 (2 ^ k) = true := by
  unfold is_power_of_2
  have h1 : (2:Nat) ^ k ≠ 0 := by positivity
  have h2 : 2 ^ k &&& (2 ^ k - 1) = 0 := by
    rw [Nat.and_pow_two_sub_one_eq_mod]
    exact Nat.mod_self _
  simp [h1, h2]

/-- Logging touches only the ring component of the context. -/
theorem foldl_btelem_log (l : List btelem_log_call) :
    ∀ (ctx : btelem_ctx),
      (l.foldl btelem_log ctx).ring = apply_logs ctx.ring l ∧
      (l.foldl btelem_log ctx).clients = ctx.clients ∧
      (l.foldl btelem_log ctx).schema = ctx.schema ∧
      (l.foldl btelem_log ctx).schema_count = ctx.schema_count ∧
      (l.foldl btelem_log ctx).endianness = ctx.endianness := by
  induction l with
  | nil => intro ctx; exact ⟨rfl, rfl, rfl, rfl, rfl⟩
  | cons x t ih =>
      intro ctx
      have h := ih (btelem_log ctx x)
      exact ⟨h.1, h.2.1, h.2.2.1, h.2.2.2.1, h.2.2.2.2⟩

/-- Unfolding btelem_drain on a valid, active consumer slot. -/
theorem btelem_drain_eq {σ : Type} (ctx : btelem_ctx) (client_id : Int)
    (torn : Nat → Bool) (emit : btelem_entry → σ → σ × Bool) (user : σ)
    (h1 : (client_id < 0 || client_id ≥ (BTELEM_MAX_CLIENTS : Int)) = false)
    (h2 : (ctx.clients.getD client_id.toNat default).active = true) :
    btelem_drain ctx client_id torn emit user =
      (let c := overwrite_adjust ctx.ring ctx.ring.head
          (ctx.clients.getD client_id.toNat default)
       let res := btelem_drain_go ctx.ring ctx.ring.head torn emit
          (ctx.ring.head - c.cursor) c user
       (Int.ofNat res.emitted,
        { ctx with clients := ctx.clients.set client_id.toNat res.client },
        res.user, res.calls)) := by
  unfold btelem_drain
  rw [if_neg (by rw [h1]; simp)]
  rw [if_neg (by rw [h2]; simp)]

/-- The context btelem_init builds for a given capacity. -/
def init_ctx (cap : Nat) : btelem_ctx :=
  { ring := { head := 0, capacity := cap, mask := cap - 1
              entries := List.replicate cap zero_entry }
    clients := List.replicate BTELEM_MAX_CLIENTS default
    schema := List.replicate BTELEM_MAX_SCHEMA_ENTRIES none
    schema_count := 0
    endianness := 0 }

/-- The consumer slot btelem_client_open fills on a fresh context when
called with a NULL filter: cursor at head 0, all-clear filter, inactive
filtering, zero counters. -/
def open0_client : btelem_client :=
  { cursor := 0
    filter := List.replicate BTELEM_MAX_SCHEMA_ENTRIES false
    filter_active := false
    dropped := 0
    dropped_reported := 0
    active := true }

/-- The context after opening the first consumer on a fresh context. -/
def opened_ctx (cap : Nat) : btelem_ctx :=
  { init_ctx cap with
    clients := (List.replicate BTELEM_MAX_CLIENTS default).set 0 open0_client }

/-- btelem_init on a power of two yields init_ctx. -/
theorem btelem_init_pow (k : Nat) : btelem_init (2 ^ k) = some (init_ctx (2 ^ k)) := by
  unfold btelem_init init_ctx
  rw [if_pos (is_power_of_2_pow k)]

/-- Opening the first consumer with a NULL filter on the fresh context. -/
theorem open_on_init (k : Nat) :
    btelem_client_open (init_ctx (2 ^ k)) none 0 = (Int.ofNat 0, opened_ctx (2 ^ k)) := by
  unfold btelem_client_open
  have hfind : ((init_ctx (2 ^ k)).clients).findIdx? (fun c => !c.active) = some 0 := by
    show (List.replicate BTELEM_MAX_CLIENTS (default : btelem_client)).findIdx?
      (fun c => !c.active) = some 0
    decide
  rw [hfind]
  rfl

/-- Shape of the context after the opening and logging pipeline. -/
theorem pipeline_shape (k : Nat) (logs : List btelem_log_call) :
    (logs.foldl btelem_log (opened_ctx (2 ^ k))).ring =
      apply_logs (init_ctx (2 ^ k)).ring logs ∧
    (logs.foldl btelem_log (opened_ctx (2 ^ k))).clients =
      (List.replicate BTELEM_MAX_CLIENTS default).set 0 open0_client := by
  have h := foldl_btelem_log logs (opened_ctx (2 ^ k))
  exact ⟨h.1, h.2.1⟩

/-- The fresh ring is well formed. -/
theorem init_ring_wf (k : Nat) : ring_wf (init_ctx (2 ^ k)).ring := by
  refine ⟨⟨k, rfl⟩, rfl, ?_⟩
  show (List.replicate (2 ^ k) zero_entry).length = 2 ^ k
  exact List.length_replicate ..

/-- The logged ring is well formed. -/
theorem logged_ring_wf (k : Nat) (logs : List btelem_log_call) :
    ring_wf (apply_logs (init_ctx (2 ^ k)).ring logs) := by
  obtain ⟨hk, hm, hl⟩ := init_ring_wf k
  have hs := apply_logs_shape logs (init_ctx (2 ^ k)).ring
  exact ⟨by rw [hs.2.1]; exact hk, by rw [hs.2.2.1, hs.2.1]; exact hm,
    by rw [hs.2.2.2, hs.2.1]; exact hl⟩

/-- Head of the logged ring. -/
theorem logged_head (k : Nat) (logs : List btelem_log_call) :
    (apply_logs (init_ctx (2 ^ k)).ring logs).head = logs.length := by
  rw [(apply_logs_shape logs (init_ctx (2 ^ k)).ring).1]
  show 0 + logs.length = logs.length
  omega

/-- Capacity of the logged ring. -/
theorem logged_capacity (k : Nat) (logs : List btelem_log_call) :
    (apply_logs (init_ctx (2 ^ k)).ring logs).capacity = 2 ^ k := by
  rw [(apply_logs_shape logs (init_ctx (2 ^ k)).ring).2.1]
  rfl

/-- Overwrite recovery on the fresh consumer after logging. -/
theorem adjust_after_logs (k : Nat) (logs : List btelem_log_call) :
    overwrite_adjust (apply_logs (init_ctx (2 ^ k)).ring logs) logs.length open0_client =
      { cursor := logs.length - 2 ^ k
        filter := List.replicate BTELEM_MAX_SCHEMA_ENTRIES false
        filter_active := false
        dropped := logs.length - 2 ^ k
        dropped_reported := 0
        active := true } := by
  unfold overwrite_adjust
  rw [logged_capacity k logs]
  by_cases hA : logs.length > 2 ^ k
  · rw [if_pos hA]
    have hB : open0_client.cursor < logs.length - 2 ^ k := by
      show (0:Nat) < logs.length - 2 ^ k
      omega
    rw [if_pos hB]
    have hdr : open0_client.dropped + ((logs.length - 2 ^ k) - open0_client.cursor)
        = logs.length - 2 ^ k := by
      show 0 + ((logs.length - 2 ^ k) - 0) = logs.length - 2 ^ k
      omega
    rw [hdr]
    rfl
  · rw [if_neg hA]
    have h0 : logs.length - 2 ^ k = 0 := by omega
    rw [h0]
    rfl

/-- Return value of btelem_drain on a valid, active consumer slot. -/
theorem btelem_drain_ret {σ : Type} (ctx : btelem_ctx) (client_id : Int)
    (torn : Nat → Bool) (emit : btelem_entry → σ → σ × Bool) (user : σ)
    (h1 : (client_id < 0 || client_id ≥ (BTELEM_MAX_CLIENTS : Int)) = false)
    (h2 : (ctx.clients.getD client_id.toNat default).active = true) :
    (btelem_drain ctx client_id torn emit user).1 =
      Int.ofNat (btelem_drain_go ctx.ring ctx.ring.head torn emit
        (ctx.ring.head - (overwrite_adjust ctx.ring ctx.ring.head
          (ctx.clients.getD client_id.toNat default)).cursor)
        (overwrite_adjust ctx.ring ctx.ring.head
          (ctx.clients.getD client_id.toNat default)) user).emitted := by
  rw [btelem_drain_eq ctx client_id torn emit user h1 h2]

/-- Context component of btelem_drain on a valid, active consumer slot. -/
theorem btelem_drain_ctx {σ : Type} (ctx : btelem_ctx) (client_id : Int)
    (torn : Nat → Bool) (emit : btelem_entry → σ → σ × Bool) (user : σ)
    (h1 : (client_id < 0 || client_id ≥ (BTELEM_MAX_CLIENTS : Int)) = false)
    (h2 : (ctx.clients.getD client_id.toNat default).active = true) :
    (btelem_drain ctx client_id torn emit user).2.1 =
      { ctx with clients := ctx.clients.set client_id.toNat (btelem_drain_go
          ctx.ring ctx.ring.head torn emit (ctx.ring.head - (overwrite_adjust
          ctx.ring ctx.ring.head (ctx.clients.getD client_id.toNat
          default)).cursor) (overwrite_adjust ctx.ring ctx.ring.head
          (ctx.clients.getD client_id.toNat default)) user).client } := by
  rw [btelem_drain_eq ctx client_id torn emit user h1 h2]

/-- Callback-trace component of btelem_drain on a valid, active slot. -/
theorem btelem_drain_calls {σ : Type} (ctx : btelem_ctx) (client_id : Int)
    (torn : Nat → Bool) (emit : btelem_entry → σ → σ × Bool) (user : σ)
    (h1 : (client_id < 0 || client_id ≥ (BTELEM_MAX_CLIENTS : Int)) = false)
    (h2 : (ctx.clients.getD client_id.toNat default).active = true) :
    (btelem_drain ctx client_id torn emit user).2.2.2 =
      (btelem_drain_go ctx.ring ctx.ring.head torn emit
        (ctx.ring.head - (overwrite_adjust ctx.ring ctx.ring.head
          (ctx.clients.getD client_id.toNat default)).cursor)
        (overwrite_adjust ctx.ring ctx.ring.head
          (ctx.clients.getD client_id.toNat default)) user).calls := by
  rw [btelem_drain_eq ctx client_id torn emit user h1 h2]

/-- Overwrite recovery never moves a cursor backwards. -/
theorem overwrite_adjust_cursor_ge (r : btelem_ring) (head : Nat)
    (c : btelem_client) : c.cursor ≤ (overwrite_adjust r head c).cursor := by
  unfold overwrite_adjust
  split_ifs with hA hB
  · show c.cursor ≤ head - r.capacity
    omega
  · exact Nat.le_refl _
  · exact Nat.le_refl _

/-- Overwrite recovery keeps the cursor at or below head when it started
at or below head. -/
theorem overwrite_adjust_cursor_le (r : btelem_ring) (head : Nat)
    (c : btelem_client) (h : c.cursor ≤ head) :
    (overwrite_adjust r head c).cursor ≤ head := by
  unfold overwrite_adjust
  split_ifs with hA hB
  · show head - r.capacity ≤ head
    omega
  · exact h
  · exact h

/-- Overwrite recovery touches only cursor and dropped. -/
theorem overwrite_adjust_frame (r : btelem_ring) (head : Nat)
    (c : btelem_client) :
    (overwrite_adjust r head c).filter = c.filter ∧
    (overwrite_adjust r head c).filter_active = c.filter_active ∧
    (overwrite_adjust r head c).dropped_reported = c.dropped_reported ∧
    (overwrite_adjust r head c).active = c.active := by
  unfold overwrite_adjust
  split_ifs <;> exact ⟨rfl, rfl, rfl, rfl⟩

/-- A drain whose consumer already sits at head emits nothing. -/
theorem btelem_drain_done {σ : Type} (ctx : btelem_ctx) (client_id : Int)
    (torn : Nat → Bool) (emit : btelem_entry → σ → σ × Bool) (user : σ)
    (h1 : (client_id < 0 || client_id ≥ (BTELEM_MAX_CLIENTS : Int)) = false)
    (h2 : (ctx.clients.getD client_id.toNat default).active = true)
    (h3 : ctx.ring.head ≤ (ctx.clients.getD client_id.toNat default).cursor) :
    (btelem_drain ctx client_id torn emit user).1 = 0 := by
  rw [btelem_drain_ret ctx client_id torn emit user h1 h2]
  have hge := overwrite_adjust_cursor_ge ctx.ring ctx.ring.head
    (ctx.clients.getD client_id.toNat default)
  have hz : ctx.ring.head - (overwrite_adjust ctx.ring ctx.ring.head
      (ctx.clients.getD client_id.toNat default)).cursor = 0 := by omega
  rw [hz]
  rfl

/-- The consumer state right after overwrite recovery in the C1 pipeline. -/
def adjusted0_client (m0 : Nat) : btelem_client :=
  { cursor := m0
    filter := List.replicate BTELEM_MAX_SCHEMA_ENTRIES false
    filter_active := false
    dropped := m0
    dropped_reported := 0
    active := true }

/-- Cursor projection of adjusted0_client. -/
theorem adjusted0_client_cursor (m0 : Nat) : (adjusted0_client m0).cursor = m0 := rfl

/-- C1. Payload round-trip: for every sequence of BTELEM_LOG calls
followed by btelem_drain calls by one consumer opened before logging with
no filter and no concurrent producers, the drain hands the emit callback
one entry per surviving log call, in order, with schema id, payload_size
and payload bytes byte-for-byte equal to the logged value, and a second
drain emits 0. -/
theorem C1_payload_roundtrip (k : Nat) (logs : List btelem_log_call)
    (hdata : ∀ call ∈ logs, call.data.length ≤ BTELEM_MAX_PAYLOAD)
    (ctx0 : btelem_ctx) (h0 : btelem_init (2 ^ k) = some ctx0)
    (cid : Int) (ctx1 : btelem_ctx)
    (h1 : btelem_client_open ctx0 none 0 = (cid, ctx1)) :
    (btelem_drain (logs.foldl btelem_log ctx1) cid no_torn collect_emit
        ([] : List btelem_entry)).1 =
      Int.ofNat (min logs.length (2 ^ k)) ∧
    (btelem_drain (logs.foldl btelem_log ctx1) cid no_torn collect_emit
        ([] : List btelem_entry)).2.2.2.length = min logs.length (2 ^ k) ∧
    (∀ j, j < min logs.length (2 ^ k) →
      ((btelem_drain (logs.foldl btelem_log ctx1) cid no_torn collect_emit
          ([] : List btelem_entry)).2.2.2.getD j default).2.1.id =
        (logs.getD (logs.length - min logs.length (2 ^ k) + j) default).id ∧
      ((btelem_drain (logs.foldl btelem_log ctx1) cid no_torn collect_emit
          ([] : List btelem_entry)).2.2.2.getD j default).2.1.payload_size =
        (logs.getD (logs.length - min logs.length (2 ^ k) + j) default).data.length ∧
      ((btelem_drain (logs.foldl btelem_log ctx1) cid no_torn collect_emit
          ([] : List btelem_entry)).2.2.2.getD j default).2.1.payload.take
          (logs.getD (logs.length - min logs.length (2 ^ k) + j) default).data.length =
        (logs.getD (logs.length - min logs.length (2 ^ k) + j) default).data) ∧
    (btelem_drain
        (btelem_drain (logs.foldl btelem_log ctx1) cid no_torn collect_emit
          ([] : List btelem_entry)).2.1
        cid no_torn collect_emit ([] : List btelem_entry)).1 = 0 := by
  have hcap0 : 0 < 2 ^ k := Nat.pos_pow_of_pos k (by omega)
  have hctx0 : init_ctx (2 ^ k) = ctx0 :=
    Option.some.inj ((btelem_init_pow k).symm.trans h0)
  subst hctx0
  rw [open_on_init k] at h1
  have hcid : cid = Int.ofNat 0 := (congrArg Prod.fst h1).symm
  have hctx1 : ctx1 = opened_ctx (2 ^ k) := (congrArg Prod.snd h1).symm
  subst hcid
  subst hctx1
  set ctxF := logs.foldl btelem_log (opened_ctx (2 ^ k)) with hctxF
  have hring2 : ctxF.ring = apply_logs (init_ctx (2 ^ k)).ring logs :=
    (pipeline_shape k logs).1
  have hcl2 : ctxF.clients =
      (List.replicate BTELEM_MAX_CLIENTS default).set 0 open0_client :=
    (pipeline_shape k logs).2
  have hgetc : ctxF.clients.getD (Int.ofNat 0).toNat default = open0_client := by
    rw [hcl2]
    decide
  have hact : (ctxF.clients.getD (Int.ofNat 0).toNat default).active = true := by
    rw [hgetc]
    rfl
  have hhead2 : ctxF.ring.head = logs.length := by
    rw [hring2, logged_head]
  have hadj : overwrite_adjust ctxF.ring ctxF.ring.head open0_client =
      adjusted0_client (logs.length - 2 ^ k) := by
    rw [hhead2, hring2, adjust_after_logs k logs]
    rfl
  have hwfL : ring_wf ctxF.ring := by
    rw [hring2]
    exact logged_ring_wf k logs
  have hcapL : ctxF.ring.capacity = 2 ^ k := by
    rw [hring2]
    exact logged_capacity k logs
  have hcom : ∀ p, logs.length - 2 ^ k ≤ p → p < logs.length →
      ((ctxF.ring.entries.getD (p &&& ctxF.ring.mask) zero_entry).seq,
       (ctxF.ring.entries.getD (p &&& ctxF.ring.mask) zero_entry).id,
       (ctxF.ring.entries.getD (p &&& ctxF.ring.mask) zero_entry).payload_size,
       (ctxF.ring.entries.getD (p &&& ctxF.ring.mask) zero_entry).payload.take
          (logs.getD p default).data.length) =
      (p + 1, (logs.getD p default).id, (logs.getD p default).data.length,
        (logs.getD p default).data) := by
    intro p hp1 hp2
    rw [ring_wf_index _ hwfL p, hcapL, hring2]
    have hc := apply_logs_committed logs (init_ctx (2 ^ k)).ring p (init_ring_wf k)
      (by show (0:Nat) ≤ p; omega)
      (by show p < 0 + logs.length; omega)
      (by show 0 + logs.length ≤ p + 2 ^ k; omega)
    have hsub : p - (init_ctx (2 ^ k)).ring.head = p := by
      show p - 0 = p
      omega
    rw [hsub] at hc
    have hcap' : (init_ctx (2 ^ k)).ring.capacity = 2 ^ k := rfl
    rw [hcap'] at hc
    rw [Prod.mk.injEq, Prod.mk.injEq, Prod.mk.injEq]
    exact ⟨hc.1, hc.2.1, hc.2.2.2.1, hc.2.2.2.2⟩
  have hcomseq : ∀ p, (adjusted0_client (logs.length - 2 ^ k)).cursor ≤ p →
      p < logs.length →
      (ctxF.ring.entries.getD (p &&& ctxF.ring.mask) zero_entry).seq = p + 1 := by
    intro p hp1 hp2
    rw [adjusted0_client_cursor] at hp1
    have h := hcom p hp1 hp2
    exact congrArg Prod.fst h
  have hcomplete := drain_go_complete ctxF.ring logs.length collect_emit
    (fun e s => rfl)
    (logs.length - (adjusted0_client (logs.length - 2 ^ k)).cursor)
    (adjusted0_client (logs.length - 2 ^ k)) ([] : List btelem_entry)
    rfl (by rw [adjusted0_client_cursor]; omega) hcomseq
  rw [adjusted0_client_cursor] at hcomplete
  have hmin : logs.length - (logs.length - 2 ^ k) = min logs.length (2 ^ k) := by
    omega
  have hmax : max (logs.length - 2 ^ k) logs.length = logs.length := by
    omega
  rw [hmax] at hcomplete
  refine ⟨?_, ?_, ?_, ?_⟩
  · rw [btelem_drain_ret ctxF (Int.ofNat 0) no_torn collect_emit [] (by decide) hact,
      hgetc, hadj, adjusted0_client_cursor, hhead2, hcomplete.2.2, hmin]
  · rw [btelem_drain_calls ctxF (Int.ofNat 0) no_torn collect_emit [] (by decide) hact,
      hgetc, hadj, adjusted0_client_cursor, hhead2, hcomplete.1,
      List.length_map, List.length_range']
    omega
  · intro j hj
    rw [btelem_drain_calls ctxF (Int.ofNat 0) no_torn collect_emit [] (by decide) hact,
      hgetc, hadj, adjusted0_client_cursor, hhead2, hcomplete.1]
    have hjlen : j < ((List.range' (logs.length - 2 ^ k)
        (logs.length - (logs.length - 2 ^ k))).map
        (fun p => (p, ctxF.ring.entries.getD (p &&& ctxF.ring.mask) zero_entry,
          false))).length := by
      rw [List.length_map, List.length_range']
      omega
    rw [List.getD_eq_getElem _ _ hjlen]
    simp only [List.getElem_map, List.getElem_range']
    have hone : logs.length - 2 ^ k + 1 * j = logs.length - 2 ^ k + j := by omega
    rw [hone]
    have hidx2 : logs.length - min logs.length (2 ^ k) + j =
        logs.length - 2 ^ k + j := by omega
    rw [hidx2]
    have hc := hcom (logs.length - 2 ^ k + j) (by omega) (by omega)
    rw [Prod.mk.injEq, Prod.mk.injEq, Prod.mk.injEq] at hc
    exact ⟨hc.2.1, hc.2.2.1, hc.2.2.2⟩
  · rw [btelem_drain_ctx ctxF (Int.ofNat 0) no_torn collect_emit [] (by decide) hact,
      hgetc, hadj, adjusted0_client_cursor, hhead2]
    set resW := btelem_drain_go ctxF.ring logs.length no_torn collect_emit
      (logs.length - (logs.length - 2 ^ k))
      (adjusted0_client (logs.length - 2 ^ k)) ([] : List btelem_entry)
      with hresW
    have hcurW : resW.client.cursor = logs.length := by
      rw [hresW]
      rw [hcomplete.2.1]
    have hactW : resW.client.active = true :=
      (drain_go_frame ctxF.ring logs.length no_torn collect_emit
        (logs.length - (logs.length - 2 ^ k))
        (adjusted0_client (logs.length - 2 ^ k)) []).2.2.2
    have hlen8 : ctxF.clients.length = BTELEM_MAX_CLIENTS := by
      rw [hcl2]
      decide
    have hget2 : ({ ctxF with clients := ctxF.clients.set (Int.ofNat 0).toNat resW.client } : btelem_ctx).clients.getD (Int.ofNat 0).toNat default = resW.client := by
      show (ctxF.clients.set (Int.ofNat 0).toNat resW.client).getD
        (Int.ofNat 0).toNat default = resW.client
      rw [List.getD_eq_getElem?_getD]
      rw [List.getElem?_set_self (by rw [hlen8]; decide)]
      rfl
    refine btelem_drain_done _ (Int.ofNat 0) no_torn collect_emit [] (by decide)
      (by rw [hget2]; exact hactW) ?_
    show ctxF.ring.head ≤ _
    rw [hget2, hhead2, hcurW]

/-- The two-u32 log sequence of the basic_log_drain seed scenario:
values 42 then 99 as little-endian u32 payloads. -/
def c1logs : List btelem_log_call :=
  [{ id := 0, timestamp := 100, data := [42, 0, 0, 0] },
   { id := 0, timestamp := 101, data := [99, 0, 0, 0] }]

/-- Witness for C1 at the basic_log_drain scenario: capacity 16, two u32
logs, first drain returns 2, second returns 0. -/
theorem C1_payload_roundtrip_witness :
    (btelem_drain (c1logs.foldl btelem_log (opened_ctx (2 ^ 4))) (Int.ofNat 0)
        no_torn collect_emit ([] : List btelem_entry)).1 = Int.ofNat 2 ∧
    ((btelem_drain (c1logs.foldl btelem_log (opened_ctx (2 ^ 4))) (Int.ofNat 0)
        no_torn collect_emit ([] : List btelem_entry)).2.2.2.getD 0
          default).2.1.payload.take 4 = [42, 0, 0, 0] ∧
    (btelem_drain
        (btelem_drain (c1logs.foldl btelem_log (opened_ctx (2 ^ 4))) (Int.ofNat 0)
          no_torn collect_emit ([] : List btelem_entry)).2.1
        (Int.ofNat 0) no_torn collect_emit ([] : List btelem_entry)).1 = 0 := by
  have h := C1_payload_roundtrip 4 c1logs (by decide) (init_ctx (2 ^ 4))
    (btelem_init_pow 4) (Int.ofNat 0) (opened_ctx (2 ^ 4)) (open_on_init 4)
  exact ⟨h.1, (h.2.2.1 0 (by decide)).2.2, h.2.2.2⟩

/-- Every emit invocation position is at least the walk's start cursor. -/
theorem drain_go_calls_pos {σ : Type} (r : btelem_ring) (head : Nat)
    (torn : Nat → Bool) (emit : btelem_entry → σ → σ × Bool) :
    ∀ (fuel : Nat) (c : btelem_client) (s : σ),
      ∀ x ∈ (btelem_drain_go r head torn emit fuel c s).calls, c.cursor ≤ x.1 := by
  intro fuel
  induction fuel with
  | zero => intro c s x hx; exact absurd hx (List.not_mem_nil x)
  | succ n ih =>
      intro c s x hx
      simp only [btelem_drain_go] at hx
      repeat' split at hx
      all_goals first
        | exact absurd hx (List.not_mem_nil x)
        | (refine le_trans (Nat.le_succ _) ?_
           exact ih { c with cursor := c.cursor + 1, dropped := c.dropped + 1 } _ _ hx)
        | (refine le_trans (Nat.le_succ _) ?_
           exact ih { c with cursor := c.cursor + 1 } _ _ hx)
        | (rcases List.mem_cons.mp hx with hh | ht
           · rw [hh]
           · refine le_trans (Nat.le_succ _) ?_
             exact ih { c with cursor := c.cursor + 1 } _ _ ht)
        | (rw [List.mem_singleton] at hx
           rw [hx])

/-- getD after set at an in-range index. -/
theorem getD_set_self {α : Type} [Inhabited α] (l : List α) (i : Nat) (a : α)
    (h : i < l.length) : (l.set i a).getD i default = a := by
  rw [List.getD_eq_getElem?_getD, List.getElem?_set_self h]
  rfl

/-- A valid client id denotes an in-range consumer slot. -/
theorem client_id_lt (client_id : Int)
    (h1 : (client_id < 0 || client_id ≥ (BTELEM_MAX_CLIENTS : Int)) = false) :
    client_id.toNat < BTELEM_MAX_CLIENTS := by
  rw [Bool.or_eq_false_iff] at h1
  have ha := of_decide_eq_false h1.1
  have hb : ¬client_id ≥ (8 : Int) := of_decide_eq_false h1.2
  show client_id.toNat < 8
  omega

/-- After btelem_drain_packed with no concurrent overwrite, the consumer's
dropped counter is exactly what the overwrite-recovery step set it to, on
every path through the function. -/
theorem packed_client_dropped (ctx : btelem_ctx) (client_id : Int) (buf_size : Nat)
    (h1 : (client_id < 0 || client_id ≥ (BTELEM_MAX_CLIENTS : Int)) = false)
    (h2 : (ctx.clients.getD client_id.toNat default).active = true)
    (hlen : ctx.clients.length = BTELEM_MAX_CLIENTS) :
    ((btelem_drain_packed ctx client_id buf_size no_torn).ctx.clients.getD
      client_id.toNat default).dropped =
    (overwrite_adjust ctx.ring ctx.ring.head
      (ctx.clients.getD client_id.toNat default)).dropped := by
  have hcid : client_id.toNat < ctx.clients.length := by
    rw [hlen]
    exact client_id_lt client_id h1
  simp only [btelem_drain_packed]
  rw [if_neg (by rw [h1]; simp)]
  rw [if_neg (by rw [h2]; simp)]
  set c := overwrite_adjust ctx.ring ctx.ring.head
    (ctx.clients.getD client_id.toNat default) with hc
  set me := min ((buf_size - PACKET_HEADER_SIZE) / ENTRY_HEADER_SIZE)
    (min (ctx.ring.head - c.cursor) ctx.ring.capacity) with hme
  set w := btelem_packed_go ctx.ring ctx.ring.head no_torn (me % 65536)
    (PACKET_HEADER_SIZE + me * ENTRY_HEADER_SIZE)
    (buf_size - PACKET_HEADER_SIZE - me * ENTRY_HEADER_SIZE)
    (ctx.ring.head - c.cursor) c 0 0 with hw
  have hwd : w.client.dropped = c.dropped := by
    rw [hw]
    exact packed_go_dropped_no_torn ..
  split_ifs
  · show ((ctx.clients.set client_id.toNat c).getD client_id.toNat default).dropped
      = c.dropped
    rw [getD_set_self _ _ _ hcid]
  · show ((ctx.clients.set client_id.toNat c).getD client_id.toNat default).dropped
      = c.dropped
    rw [getD_set_self _ _ _ hcid]
  · show ((ctx.clients.set client_id.toNat c).getD client_id.toNat default).dropped
      = c.dropped
    rw [getD_set_self _ _ _ hcid]
  · show ((ctx.clients.set client_id.toNat w.client).getD client_id.toNat
        default).dropped = c.dropped
    rw [getD_set_self _ _ _ hcid]
    exact hwd
  · show ((ctx.clients.set client_id.toNat { w.client with
        dropped_reported := w.client.dropped_reported +
          min UINT32_MAX (w.client.dropped - w.client.dropped_reported) }).getD
        client_id.toNat default).dropped = c.dropped
    rw [getD_set_self _ _ _ hcid]
    exact hwd
  · show ((ctx.clients.set client_id.toNat { w.client with
        dropped_reported := w.client.dropped_reported +
          min UINT32_MAX (w.client.dropped - w.client.dropped_reported) }).getD
        client_id.toNat default).dropped = c.dropped
    rw [getD_set_self _ _ _ hcid]
    exact hwd

/-- When the consumer fell behind the oldest surviving entry, overwrite
recovery accumulates the gap in dropped and jumps the cursor to oldest. -/
theorem overwrite_adjust_jump (r : btelem_ring) (head : Nat) (c : btelem_client)
    (h1 : r.capacity < head) (h2 : c.cursor < head - r.capacity) :
    overwrite_adjust r head c =
      { c with dropped := c.dropped + ((head - r.capacity) - c.cursor)
               cursor := head - r.capacity } := by
  unfold overwrite_adjust
  rw [if_pos h1, if_pos h2]

/-- Every entry-table position of a packed drain is at or past the cursor
the overwrite recovery produced. -/
theorem packed_table_pos_ctx (ctx : btelem_ctx) (client_id : Int)
    (buf_size : Nat) (torn : Nat → Bool) :
    ∀ x ∈ (btelem_drain_packed ctx client_id buf_size torn).table,
      (overwrite_adjust ctx.ring ctx.ring.head
        (ctx.clients.getD client_id.toNat default)).cursor ≤ x.1 := by
  intro x hx
  simp only [btelem_drain_packed] at hx
  split_ifs at hx
  all_goals first
    | exact absurd hx (List.not_mem_nil x)
    | exact packed_go_table_pos _ _ _ _ _ _ _ _ _ _ x hx

/-- The wrap_around seed scenario log sequence: values 0..19 as u32. -/
def c2logs : List btelem_log_call :=
  (List.range 20).map (fun v => { id := 0, timestamp := v, data := [v, 0, 0, 0] })

/-- C2. Overwrite accounting at both drain entry points: when the cursor
fell below oldest = head - capacity, oldest - cursor is added to dropped
and the walk starts at oldest, so every delivered position is at least
oldest; concretely, 20 logs into a capacity-16 ring drain as the 16
values 4..19 with dropped = 4. -/
theorem C2_overwrite_accounting :
    (∀ (σ : Type) (ctx : btelem_ctx) (client_id : Int)
        (emit : btelem_entry → σ → σ × Bool) (user : σ),
      (client_id < 0 || client_id ≥ (BTELEM_MAX_CLIENTS : Int)) = false →
      (ctx.clients.getD client_id.toNat default).active = true →
      ctx.clients.length = BTELEM_MAX_CLIENTS →
      ctx.ring.capacity < ctx.ring.head →
      (ctx.clients.getD client_id.toNat default).cursor <
        ctx.ring.head - ctx.ring.capacity →
      ((btelem_drain ctx client_id no_torn emit user).2.1.clients.getD
          client_id.toNat default).dropped =
        (ctx.clients.getD client_id.toNat default).dropped +
          (ctx.ring.head - ctx.ring.capacity -
            (ctx.clients.getD client_id.toNat default).cursor) ∧
      (∀ x ∈ (btelem_drain ctx client_id no_torn emit user).2.2.2,
        ctx.ring.head - ctx.ring.capacity ≤ x.1)) ∧
    (∀ (ctx : btelem_ctx) (client_id : Int) (buf_size : Nat),
      (client_id < 0 || client_id ≥ (BTELEM_MAX_CLIENTS : Int)) = false →
      (ctx.clients.getD client_id.toNat default).active = true →
      ctx.clients.length = BTELEM_MAX_CLIENTS →
      ctx.ring.capacity < ctx.ring.head →
      (ctx.clients.getD client_id.toNat default).cursor <
        ctx.ring.head - ctx.ring.capacity →
      ((btelem_drain_packed ctx client_id buf_size no_torn).ctx.clients.getD
          client_id.toNat default).dropped =
        (ctx.clients.getD client_id.toNat default).dropped +
          (ctx.ring.head - ctx.ring.capacity -
            (ctx.clients.getD client_id.toNat default).cursor) ∧
      (∀ x ∈ (btelem_drain_packed ctx client_id buf_size no_torn).table,
        ctx.ring.head - ctx.ring.capacity ≤ x.1)) ∧
    ((btelem_drain (c2logs.foldl btelem_log (opened_ctx (2 ^ 4))) (Int.ofNat 0)
        no_torn collect_emit ([] : List btelem_entry)).1 = Int.ofNat 16 ∧
     ((btelem_drain (c2logs.foldl btelem_log (opened_ctx (2 ^ 4))) (Int.ofNat 0)
        no_torn collect_emit ([] : List btelem_entry)).2.1.clients.getD 0
          default).dropped = 4 ∧
     (btelem_drain (c2logs.foldl btelem_log (opened_ctx (2 ^ 4))) (Int.ofNat 0)
        no_torn collect_emit ([] : List btelem_entry)).2.2.2.map
          (fun x => x.2.1.payload.getD 0 0) =
       [4, 5, 6, 7, 8, 9, 10, 11, 12, 13, 14, 15, 16, 17, 18, 19]) := by
  refine ⟨?_, ?_, ?_⟩
  · intro σ ctx client_id emit user h1 h2 hlen hcap hbehind
    have hcid : client_id.toNat < ctx.clients.length := by
      rw [hlen]
      exact client_id_lt client_id h1
    have hadjv := overwrite_adjust_jump ctx.ring ctx.ring.head
      (ctx.clients.getD client_id.toNat default) hcap hbehind
    constructor
    · rw [btelem_drain_ctx ctx client_id no_torn emit user h1 h2]
      show ((ctx.clients.set client_id.toNat _).getD client_id.toNat
        default).dropped = _
      rw [getD_set_self _ _ _ hcid]
      rw [drain_go_dropped_no_torn, hadjv]
    · intro x hx
      rw [btelem_drain_calls ctx client_id no_torn emit user h1 h2] at hx
      have hpos := drain_go_calls_pos ctx.ring ctx.ring.head no_torn emit _ _ _ x hx
      rw [hadjv] at hpos
      exact hpos
  · intro ctx client_id buf_size h1 h2 hlen hcap hbehind
    have hadjv := overwrite_adjust_jump ctx.ring ctx.ring.head
      (ctx.clients.getD client_id.toNat default) hcap hbehind
    constructor
    · rw [packed_client_dropped ctx client_id buf_size h1 h2 hlen, hadjv]
    · intro x hx
      have hpos := packed_table_pos_ctx ctx client_id buf_size no_torn x hx
      rw [hadjv] at hpos
      exact hpos
  · refine ⟨by decide, by decide, by decide⟩

/-- The wrap_around scenario context: 20 logs into a capacity-16 ring
with a consumer opened at cursor 0. -/
def c2ctx : btelem_ctx := c2logs.foldl btelem_log (opened_ctx (2 ^ 4))

/-- Witness for C2 at the wrap_around scenario. -/
theorem C2_overwrite_accounting_witness :
    c2ctx.ring.capacity < c2ctx.ring.head ∧
    ((btelem_drain_packed c2ctx (Int.ofNat 0) 4096 no_torn).ctx.clients.getD
      (Int.ofNat 0).toNat default).dropped =
      (c2ctx.clients.getD (Int.ofNat 0).toNat default).dropped +
        (c2ctx.ring.head - c2ctx.ring.capacity -
          (c2ctx.clients.getD (Int.ofNat 0).toNat default).cursor) :=
  ⟨by decide, (C2_overwrite_accounting.2.1 c2ctx (Int.ofNat 0) 4096 (by decide)
    (by decide) (by decide) (by decide) (by decide)).1⟩

/-- Overwrite recovery never lowers the dropped counter. -/
theorem overwrite_adjust_dropped_ge (r : btelem_ring) (head : Nat)
    (c : btelem_client) : c.dropped ≤ (overwrite_adjust r head c).dropped := by
  unfold overwrite_adjust
  split_ifs with hA hB
  · show c.dropped ≤ c.dropped + _
    omega
  · exact Nat.le_refl _
  · exact Nat.le_refl _

/-- C3. Every packet's dropped field is the clamped delta between the
consumer's dropped counter at header-fill time and the dropped_reported
counter at call entry; dropped_reported then grows by exactly that field,
and the invariant dropped_reported ≤ dropped is preserved by every call. -/
theorem C3_dropped_delta (ctx : btelem_ctx) (client_id : Int) (buf_size : Nat)
    (torn : Nat → Bool)
    (h1 : (client_id < 0 || client_id ≥ (BTELEM_MAX_CLIENTS : Int)) = false)
    (h2 : (ctx.clients.getD client_id.toNat default).active = true)
    (hlen : ctx.clients.length = BTELEM_MAX_CLIENTS) :
    (∀ p, (btelem_drain_packed ctx client_id buf_size torn).pkt = some p →
      p.dropped = min UINT32_MAX
        (((btelem_drain_packed ctx client_id buf_size torn).ctx.clients.getD
            client_id.toNat default).dropped -
          (ctx.clients.getD client_id.toNat default).dropped_reported) ∧
      ((btelem_drain_packed ctx client_id buf_size torn).ctx.clients.getD
          client_id.toNat default).dropped_reported =
        (ctx.clients.getD client_id.toNat default).dropped_reported + p.dropped) ∧
    ((ctx.clients.getD client_id.toNat default).dropped_reported ≤
        (ctx.clients.getD client_id.toNat default).dropped →
      ((btelem_drain_packed ctx client_id buf_size torn).ctx.clients.getD
          client_id.toNat default).dropped_reported ≤
        ((btelem_drain_packed ctx client_id buf_size torn).ctx.clients.getD
          client_id.toNat default).dropped) := by
  have hcid : client_id.toNat < ctx.clients.length := by
    rw [hlen]
    exact client_id_lt client_id h1
  simp only [btelem_drain_packed]
  rw [if_neg (by rw [h1]; simp)]
  rw [if_neg (by rw [h2]; simp)]
  set c0 := ctx.clients.getD client_id.toNat default with hc0
  set c := overwrite_adjust ctx.ring ctx.ring.head c0 with hc
  set me := min ((buf_size - PACKET_HEADER_SIZE) / ENTRY_HEADER_SIZE)
    (min (ctx.ring.head - c.cursor) ctx.ring.capacity) with hme
  set w := btelem_packed_go ctx.ring ctx.ring.head torn (me % 65536)
    (PACKET_HEADER_SIZE + me * ENTRY_HEADER_SIZE)
    (buf_size - PACKET_HEADER_SIZE - me * ENTRY_HEADER_SIZE)
    (ctx.ring.head - c.cursor) c 0 0 with hw
  have hrep_c : c.dropped_reported = c0.dropped_reported := by
    rw [hc]
    exact (overwrite_adjust_frame ctx.ring ctx.ring.head c0).2.2.1
  have hd_c : c0.dropped ≤ c.dropped := by
    rw [hc]
    exact overwrite_adjust_dropped_ge ctx.ring ctx.ring.head c0
  have hrep_w : w.client.dropped_reported = c0.dropped_reported := by
    rw [hw]
    rw [(packed_go_frame _ _ _ _ _ _ _ _ _ _).2.2.1]
    exact hrep_c
  have hd_w : c0.dropped ≤ w.client.dropped := by
    rw [hw]
    exact le_trans hd_c (packed_go_dropped_mono _ _ _ _ _ _ _ _ _ _)
  split_ifs
  case pos =>
    refine ⟨fun p hp => hp.elim, fun hinv => ?_⟩
    show ((ctx.clients.set client_id.toNat c).getD client_id.toNat
        default).dropped_reported ≤
      ((ctx.clients.set client_id.toNat c).getD client_id.toNat default).dropped
    rw [getD_set_self _ _ _ hcid]
    rw [hrep_c]
    omega
  case pos =>
    refine ⟨fun p hp => hp.elim, fun hinv => ?_⟩
    show ((ctx.clients.set client_id.toNat c).getD client_id.toNat
        default).dropped_reported ≤
      ((ctx.clients.set client_id.toNat c).getD client_id.toNat default).dropped
    rw [getD_set_self _ _ _ hcid]
    rw [hrep_c]
    omega
  case pos =>
    refine ⟨fun p hp => hp.elim, fun hinv => ?_⟩
    show ((ctx.clients.set client_id.toNat c).getD client_id.toNat
        default).dropped_reported ≤
      ((ctx.clients.set client_id.toNat c).getD client_id.toNat default).dropped
    rw [getD_set_self _ _ _ hcid]
    rw [hrep_c]
    omega
  case pos =>
    refine ⟨fun p hp => hp.elim, fun hinv => ?_⟩
    show ((ctx.clients.set client_id.toNat w.client).getD client_id.toNat
        default).dropped_reported ≤
      ((ctx.clients.set client_id.toNat w.client).getD client_id.toNat
        default).dropped
    rw [getD_set_self _ _ _ hcid]
    rw [hrep_w]
    omega
  case pos =>
    refine ⟨fun p hp => ?_, fun hinv => ?_⟩
    · have hpp := Option.some.inj hp
      constructor
      · show p.dropped = min UINT32_MAX
          (((ctx.clients.set client_id.toNat { w.client with
            dropped_reported := w.client.dropped_reported +
              min UINT32_MAX (w.client.dropped - w.client.dropped_reported)
            }).getD client_id.toNat default).dropped - c0.dropped_reported)
        rw [getD_set_self _ _ _ hcid]
        rw [← hpp]
        show min UINT32_MAX (w.client.dropped - w.client.dropped_reported) =
          min UINT32_MAX (w.client.dropped - c0.dropped_reported)
        rw [hrep_w]
      · show ((ctx.clients.set client_id.toNat { w.client with
            dropped_reported := w.client.dropped_reported +
              min UINT32_MAX (w.client.dropped - w.client.dropped_reported)
            }).getD client_id.toNat default).dropped_reported =
          c0.dropped_reported + p.dropped
        rw [getD_set_self _ _ _ hcid]
        rw [← hpp]
        show w.client.dropped_reported +
            min UINT32_MAX (w.client.dropped - w.client.dropped_reported) =
          c0.dropped_reported +
            min UINT32_MAX (w.client.dropped - w.client.dropped_reported)
        rw [hrep_w]
    · show ((ctx.clients.set client_id.toNat { w.client with
          dropped_reported := w.client.dropped_reported +
            min UINT32_MAX (w.client.dropped - w.client.dropped_reported)
          }).getD client_id.toNat default).dropped_reported ≤
        ((ctx.clients.set client_id.toNat { w.client with
          dropped_reported := w.client.dropped_reported +
            min UINT32_MAX (w.client.dropped - w.client.dropped_reported)
          }).getD client_id.toNat default).dropped
      rw [getD_set_self _ _ _ hcid]
      show w.client.dropped_reported +
          min UINT32_MAX (w.client.dropped - w.client.dropped_reported) ≤
        w.client.dropped
      rw [hrep_w]
      omega
  case neg =>
    refine ⟨fun p hp => ?_, fun hinv => ?_⟩
    · have hpp := Option.some.inj hp
      constructor
      · show p.dropped = min UINT32_MAX
          (((ctx.clients.set client_id.toNat { w.client with
            dropped_reported := w.client.dropped_reported +
              min UINT32_MAX (w.client.dropped - w.client.dropped_reported)
            }).getD client_id.toNat default).dropped - c0.dropped_reported)
        rw [getD_set_self _ _ _ hcid]
        rw [← hpp]
        show min UINT32_MAX (w.client.dropped - w.client.dropped_reported) =
          min UINT32_MAX (w.client.dropped - c0.dropped_reported)
        rw [hrep_w]
      · show ((ctx.clients.set client_id.toNat { w.client with
            dropped_reported := w.client.dropped_reported +
              min UINT32_MAX (w.client.dropped - w.client.dropped_reported)
            }).getD client_id.toNat default).dropped_reported =
          c0.dropped_reported + p.dropped
        rw [getD_set_self _ _ _ hcid]
        rw [← hpp]
        show w.client.dropped_reported +
            min UINT32_MAX (w.client.dropped - w.client.dropped_reported) =
          c0.dropped_reported +
            min UINT32_MAX (w.client.dropped - w.client.dropped_reported)
        rw [hrep_w]
    · show ((ctx.clients.set client_id.toNat { w.client with
          dropped_reported := w.client.dropped_reported +
            min UINT32_MAX (w.client.dropped - w.client.dropped_reported)
          }).getD client_id.toNat default).dropped_reported ≤
        ((ctx.clients.set client_id.toNat { w.client with
          dropped_reported := w.client.dropped_reported +
            min UINT32_MAX (w.client.dropped - w.client.dropped_reported)
          }).getD client_id.toNat default).dropped
      rw [getD_set_self _ _ _ hcid]
      show w.client.dropped_reported +
          min UINT32_MAX (w.client.dropped - w.client.dropped_reported) ≤
        w.client.dropped
      rw [hrep_w]
      omega

/-- Witness for C3: the wrap_around scenario's first packet reports a
dropped delta of 4 and dropped_reported grows by exactly 4. -/
theorem C3_dropped_delta_witness :
    (btelem_drain_packed c2ctx (Int.ofNat 0) 65536 no_torn).pkt =
      some { entry_count := 16, flags := 0, payload_size := 64
             dropped := 4, reserved := 0 } ∧
    ((btelem_drain_packed c2ctx (Int.ofNat 0) 65536 no_torn).ctx.clients.getD
        (Int.ofNat 0).toNat default).dropped_reported =
      (c2ctx.clients.getD (Int.ofNat 0).toNat default).dropped_reported + 4 := by
  have h := C3_dropped_delta c2ctx (Int.ofNat 0) 65536 no_torn (by decide)
    (by decide) (by decide)
  have hpkt : (btelem_drain_packed c2ctx (Int.ofNat 0) 65536 no_torn).pkt =
      some { entry_count := 16, flags := 0, payload_size := 64
             dropped := 4, reserved := 0 } := by decide
  exact ⟨hpkt, (h.1 _ hpkt).2⟩

/-- An emit callback that always returns non-zero: it halts the drain on
its first invocation. -/
def halt_emit : btelem_entry → Unit → Unit × Bool := fun _ s => (s, true)

/-- C4 counterexample: with one committed entry and a callback returning
non-zero, the callback is invoked once yet btelem_drain returns 0, so the
return value is not one per emit invocation when a non-zero return halts
the drain. -/
theorem C4_counterexample :
    (btelem_drain (c1logs.foldl btelem_log (opened_ctx (2 ^ 4))) (Int.ofNat 0)
      no_torn halt_emit ()).1 = 0 ∧
    (btelem_drain (c1logs.foldl btelem_log (opened_ctx (2 ^ 4))) (Int.ofNat 0)
      no_torn halt_emit ()).2.2.2.length = 1 ∧
    (0 : Int) ≠ Int.ofNat 1 := by
  refine ⟨by decide, by decide, by decide⟩

/-- C4 as amended: btelem_drain returns InvalidConsumer (-1) when the slot
is out of range or inactive; otherwise it returns the number of emit
invocations that returned zero — a non-negative count even when a
non-zero callback return halts the drain early, whose final (halting)
invocation is not counted. -/
theorem C4_drain_return {σ : Type} (ctx : btelem_ctx) (client_id : Int)
    (torn : Nat → Bool) (emit : btelem_entry → σ → σ × Bool) (user : σ) :
    ((client_id < 0 || client_id ≥ (BTELEM_MAX_CLIENTS : Int)) = true →
      (btelem_drain ctx client_id torn emit user).1 = -1) ∧
    ((ctx.clients.getD client_id.toNat default).active = false →
      (btelem_drain ctx client_id torn emit user).1 = -1) ∧
    ((client_id < 0 || client_id ≥ (BTELEM_MAX_CLIENTS : Int)) = false →
      (ctx.clients.getD client_id.toNat default).active = true →
      (btelem_drain ctx client_id torn emit user).1 =
        Int.ofNat ((btelem_drain ctx client_id torn emit user).2.2.2.filter
          (fun x => !x.2.2)).length ∧
      0 ≤ (btelem_drain ctx client_id torn emit user).1) := by
  refine ⟨?_, ?_, ?_⟩
  · intro hbad
    unfold btelem_drain
    rw [if_pos hbad]
  · intro hinact
    unfold btelem_drain
    by_cases hv : (client_id < 0 || client_id ≥ (BTELEM_MAX_CLIENTS : Int)) = true
    · rw [if_pos hv]
    · rw [if_neg hv]
      rw [if_pos (by rw [hinact]; rfl)]
  · intro h1 h2
    constructor
    · rw [btelem_drain_ret ctx client_id torn emit user h1 h2,
        btelem_drain_calls ctx client_id torn emit user h1 h2]
      rw [drain_go_emitted_eq]
    · rw [btelem_drain_ret ctx client_id torn emit user h1 h2]
      exact Int.ofNat_nonneg _

/-- Witness for C4 as amended, at the halting-callback scenario: the
drain returns 0, which is the count of zero-returning invocations. -/
theorem C4_drain_return_witness :
    (btelem_drain (c1logs.foldl btelem_log (opened_ctx (2 ^ 4))) (Int.ofNat 0)
      no_torn halt_emit ()).1 =
      Int.ofNat ((btelem_drain (c1logs.foldl btelem_log (opened_ctx (2 ^ 4)))
        (Int.ofNat 0) no_torn halt_emit ()).2.2.2.filter
          (fun x => !x.2.2)).length :=
  ((C4_drain_return (c1logs.foldl btelem_log (opened_ctx (2 ^ 4))) (Int.ofNat 0)
    no_torn halt_emit ()).2.2 (by decide) (by decide)).1

/-- C5. On a valid, active consumer, btelem_drain_packed returns the
negative BufferTooSmall result only when buf_size is below the packet
header size; it returns 0 when nothing is available after overwrite
recovery or when max_entries computes to 0; and with a buffer of exactly
one packet header it returns 0 without advancing the cursor past any
committed entry (the cursor stays where overwrite recovery put it). -/
theorem C5_buffer_too_small (ctx : btelem_ctx) (client_id : Int)
    (buf_size : Nat) (torn : Nat → Bool)
    (h1 : (client_id < 0 || client_id ≥ (BTELEM_MAX_CLIENTS : Int)) = false)
    (h2 : (ctx.clients.getD client_id.toNat default).active = true)
    (hlen : ctx.clients.length = BTELEM_MAX_CLIENTS) :
    ((btelem_drain_packed ctx client_id buf_size torn).ret < 0 →
      buf_size < PACKET_HEADER_SIZE) ∧
    ((overwrite_adjust ctx.ring ctx.ring.head
        (ctx.clients.getD client_id.toNat default)).cursor ≥ ctx.ring.head →
      (btelem_drain_packed ctx client_id buf_size torn).ret = 0) ∧
    (¬buf_size < PACKET_HEADER_SIZE →
      min ((buf_size - PACKET_HEADER_SIZE) / ENTRY_HEADER_SIZE)
        (min (ctx.ring.head - (overwrite_adjust ctx.ring ctx.ring.head
          (ctx.clients.getD client_id.toNat default)).cursor)
          ctx.ring.capacity) = 0 →
      (btelem_drain_packed ctx client_id buf_size torn).ret = 0) ∧
    (buf_size = PACKET_HEADER_SIZE →
      (btelem_drain_packed ctx client_id buf_size torn).ret = 0 ∧
      ((btelem_drain_packed ctx client_id buf_size torn).ctx.clients.getD
          client_id.toNat default).cursor =
        (overwrite_adjust ctx.ring ctx.ring.head
          (ctx.clients.getD client_id.toNat default)).cursor) := by
  have hcid : client_id.toNat < ctx.clients.length := by
    rw [hlen]
    exact client_id_lt client_id h1
  simp only [btelem_drain_packed]
  rw [if_neg (by rw [h1]; simp)]
  rw [if_neg (by rw [h2]; simp)]
  set c0 := ctx.clients.getD client_id.toNat default with hc0
  set c := overwrite_adjust ctx.ring ctx.ring.head c0 with hc
  set me := min ((buf_size - PACKET_HEADER_SIZE) / ENTRY_HEADER_SIZE)
    (min (ctx.ring.head - c.cursor) ctx.ring.capacity) with hme
  set w := btelem_packed_go ctx.ring ctx.ring.head torn (me % 65536)
    (PACKET_HEADER_SIZE + me * ENTRY_HEADER_SIZE)
    (buf_size - PACKET_HEADER_SIZE - me * ENTRY_HEADER_SIZE)
    (ctx.ring.head - c.cursor) c 0 0 with hw
  have hme16 : buf_size = PACKET_HEADER_SIZE → me = 0 := by
    intro heq
    rw [hme, heq]
    simp
  split_ifs with hA hB hC hD hE
  · refine ⟨fun h => absurd (show (0:Int) < 0 from h) (by decide), fun _ => rfl,
      fun _ _ => rfl, fun _ => ⟨rfl, ?_⟩⟩
    show ((ctx.clients.set client_id.toNat c).getD client_id.toNat default).cursor
      = c.cursor
    rw [getD_set_self _ _ _ hcid]
  · refine ⟨fun _ => hB, fun hge => absurd hge hA, fun hnb _ => absurd hB hnb,
      fun heq => absurd hB (by omega)⟩
  · refine ⟨fun h => absurd (show (0:Int) < 0 from h) (by decide), fun _ => rfl,
      fun _ _ => rfl, fun _ => ⟨rfl, ?_⟩⟩
    show ((ctx.clients.set client_id.toNat c).getD client_id.toNat default).cursor
      = c.cursor
    rw [getD_set_self _ _ _ hcid]
  · refine ⟨fun h => absurd (show (0:Int) < 0 from h) (by decide),
      fun hge => absurd hge hA,
      fun _ hm => absurd hm hC, fun heq => absurd (hme16 heq) hC⟩
  · refine ⟨fun h => ?_, fun hge => absurd hge hA, fun _ hm => absurd hm hC,
      fun heq => absurd (hme16 heq) hC⟩
    exact absurd h (by exact Int.not_lt.mpr (Int.ofNat_nonneg _))
  · refine ⟨fun h => ?_, fun hge => absurd hge hA, fun _ hm => absurd hm hC,
      fun heq => absurd (hme16 heq) hC⟩
    exact absurd h (by exact Int.not_lt.mpr (Int.ofNat_nonneg _))

/-- Witness for C5 at the basic scenario with a 16-byte buffer: returns 0
and the cursor is unchanged. -/
theorem C5_buffer_too_small_witness :
    (btelem_drain_packed (c1logs.foldl btelem_log (opened_ctx (2 ^ 4)))
      (Int.ofNat 0) 16 no_torn).ret = 0 ∧
    ((btelem_drain_packed (c1logs.foldl btelem_log (opened_ctx (2 ^ 4)))
        (Int.ofNat 0) 16 no_torn).ctx.clients.getD (Int.ofNat 0).toNat
        default).cursor =
      (overwrite_adjust (c1logs.foldl btelem_log (opened_ctx (2 ^ 4))).ring
        (c1logs.foldl btelem_log (opened_ctx (2 ^ 4))).ring.head
        ((c1logs.foldl btelem_log (opened_ctx (2 ^ 4))).clients.getD
          (Int.ofNat 0).toNat default)).cursor :=
  (C5_buffer_too_small (c1logs.foldl btelem_log (opened_ctx (2 ^ 4)))
    (Int.ofNat 0) 16 no_torn (by decide) (by decide) (by decide)).2.2.2 rfl

/-- The filter seed scenario: two schemas, consumer filtering for id 1,
logs with ids 0 (value 10), 1 (value 20), 0 (value 30). -/
def c7logs : List btelem_log_call :=
  [{ id := 0, timestamp := 0, data := [10, 0, 0, 0] },
   { id := 1, timestamp := 1, data := [20, 0, 0, 0] },
   { id := 0, timestamp := 2, data := [30, 0, 0, 0] }]

/-- The filter scenario context before logging: fresh capacity-16 context
with one consumer opened with filter set containing only id 1. -/
def c7ctx1 : btelem_ctx :=
  (btelem_client_open ((btelem_init (2 ^ 4)).getD default) (some [1]) 1).2

/-- C7. When a consumer's filter is active, every entry handed to the
btelem_drain emit callback and every entry placed in a btelem_drain_packed
packet has a schema id the consumer's dense filter accepts; concretely,
with filter = set-of-1 and logs of ids 0, 1, 0 the drain emits exactly the
one id-1 entry with value 20. -/
theorem C7_filter_respected :
    (∀ (σ : Type) (ctx : btelem_ctx) (client_id : Int) (torn : Nat → Bool)
        (emit : btelem_entry → σ → σ × Bool) (user : σ),
      (ctx.clients.getD client_id.toNat default).filter_active = true →
      ∀ x ∈ (btelem_drain ctx client_id torn emit user).2.2.2,
        (ctx.clients.getD client_id.toNat default).filter.getD x.2.1.id false
          = true) ∧
    (∀ (ctx : btelem_ctx) (client_id : Int) (buf_size : Nat) (torn : Nat → Bool),
      (ctx.clients.getD client_id.toNat default).filter_active = true →
      ∀ x ∈ (btelem_drain_packed ctx client_id buf_size torn).table,
        (ctx.clients.getD client_id.toNat default).filter.getD x.2.id false
          = true) ∧
    ((btelem_drain (c7logs.foldl btelem_log (c7ctx1)) (Int.ofNat 0) no_torn
        collect_emit ([] : List btelem_entry)).1 = Int.ofNat 1 ∧
     (btelem_drain (c7logs.foldl btelem_log (c7ctx1)) (Int.ofNat 0) no_torn
        collect_emit ([] : List btelem_entry)).2.2.2.map
          (fun x => x.2.1.payload.take 4) = [[20, 0, 0, 0]]) := by
  refine ⟨?_, ?_, by decide, by decide⟩
  · intro σ ctx client_id torn emit user hfa x hx
    have hfr := overwrite_adjust_frame ctx.ring ctx.ring.head
      (ctx.clients.getD client_id.toNat default)
    simp only [btelem_drain] at hx
    split_ifs at hx
    · exact absurd hx (List.not_mem_nil x)
    · exact absurd hx (List.not_mem_nil x)
    · rw [← hfr.1]
      exact drain_go_calls_filter _ _ _ _ _ _ _ (by rw [hfr.2.1]; exact hfa) x hx
  · intro ctx client_id buf_size torn hfa x hx
    have hfr := overwrite_adjust_frame ctx.ring ctx.ring.head
      (ctx.clients.getD client_id.toNat default)
    simp only [btelem_drain_packed] at hx
    split_ifs at hx
    all_goals first
      | exact absurd hx (List.not_mem_nil x)
      | (rw [← hfr.1]
         exact packed_go_table_filter _ _ _ _ _ _ _ _ _ _
           (by rw [hfr.2.1]; exact hfa) x hx)

/-- Witness for C7 at the filter scenario. -/
theorem C7_filter_respected_witness :
    ((c7logs.foldl btelem_log c7ctx1).clients.getD (Int.ofNat 0).toNat
      default).filter_active = true ∧
    ∀ x ∈ (btelem_drain (c7logs.foldl btelem_log c7ctx1) (Int.ofNat 0) no_torn
        collect_emit ([] : List btelem_entry)).2.2.2,
      ((c7logs.foldl btelem_log c7ctx1).clients.getD (Int.ofNat 0).toNat
        default).filter.getD x.2.1.id false = true :=
  ⟨by decide, C7_filter_respected.1 (List btelem_entry)
    (c7logs.foldl btelem_log c7ctx1) (Int.ofNat 0) no_torn collect_emit []
    (by decide)⟩

/-- When every committed entry from the cursor on is either torn or
rejected by the active filter, the packed walk packs nothing and writes
nothing, though the cursor still advances over those entries. -/
theorem packed_go_all_rejected (r : btelem_ring) (head : Nat) (torn : Nat → Bool)
    (me16 pbase pcap : Nat) :
    ∀ (fuel : Nat) (c : btelem_client) (ec po : Nat),
      c.filter_active = true →
      (∀ p, c.cursor ≤ p → p < head →
        (r.entries.getD (p &&& r.mask) zero_entry).seq = p + 1 →
        torn p = true ∨
          c.filter.getD ((r.entries.getD (p &&& r.mask) zero_entry)).id false
            = false) →
      (btelem_packed_go r head torn me16 pbase pcap fuel c ec po).entry_count = ec ∧
      (btelem_packed_go r head torn me16 pbase pcap fuel c ec po).table = [] ∧
      (btelem_packed_go r head torn me16 pbase pcap fuel c ec po).writes = [] ∧
      (btelem_packed_go r head torn me16 pbase pcap fuel c ec po).payload_offset = po := by
  intro fuel
  induction fuel with
  | zero => intro c ec po _ _; exact ⟨rfl, rfl, rfl, rfl⟩
  | succ n ih =>
      intro c ec po hfa hrej
      rw [btelem_packed_go]
      by_cases h1 : c.cursor < head
      case neg =>
        rw [if_neg h1]
        exact ⟨rfl, rfl, rfl, rfl⟩
      rw [if_pos h1]
      by_cases h2 : (r.entries.getD (c.cursor &&& r.mask) zero_entry).seq = c.cursor + 1
      case neg =>
        rw [if_neg h2]
        exact ⟨rfl, rfl, rfl, rfl⟩
      rw [if_pos h2]
      have hstep := hrej c.cursor (Nat.le_refl _) h1 h2
      by_cases h3 : torn c.cursor = true
      case pos =>
        rw [if_pos h3]
        exact ih { c with cursor := c.cursor + 1, dropped := c.dropped + 1 } ec po
          hfa (fun p hp1 hp2 hp3 =>
            hrej p (by have hp1' : c.cursor + 1 ≤ p := hp1; omega) hp2 hp3)
      rw [if_neg h3]
      have hflt : c.filter.getD
          ((r.entries.getD (c.cursor &&& r.mask) zero_entry)).id false = false := by
        rcases hstep with hs | hs
        · exact absurd hs h3
        · exact hs
      rw [if_pos (by rw [hfa, hflt]; rfl)]
      exact ih { c with cursor := c.cursor + 1 } ec po hfa
        (fun p hp1 hp2 hp3 =>
          hrej p (by have hp1' : c.cursor + 1 ≤ p := hp1; omega) hp2 hp3)

set_option maxHeartbeats 2000000 in
/-- C10. btelem_drain_packed can return 0 while still consuming entries:
when every committed entry past the recovered cursor is rejected by the
active filter or torn by a concurrent overwrite, a call with a buffer of
at least one packet header returns 0 with no buffer write at all and no
packet, yet the consumer's cursor does not move back (it advances past
every walked entry), and any packed drain only delivers positions at or
past its own entry cursor, so the skipped entries are never delivered. -/
theorem C10_silent_consumption (ctx : btelem_ctx) (client_id : Int)
    (buf_size : Nat) (torn : Nat → Bool)
    (h1 : (client_id < 0 || client_id ≥ (BTELEM_MAX_CLIENTS : Int)) = false)
    (h2 : (ctx.clients.getD client_id.toNat default).active = true)
    (hlen : ctx.clients.length = BTELEM_MAX_CLIENTS)
    (hbs : PACKET_HEADER_SIZE ≤ buf_size)
    (hfa : (ctx.clients.getD client_id.toNat default).filter_active = true)
    (hrej : ∀ p,
      (overwrite_adjust ctx.ring ctx.ring.head
        (ctx.clients.getD client_id.toNat default)).cursor ≤ p →
      p < ctx.ring.head →
      (ctx.ring.entries.getD (p &&& ctx.ring.mask) zero_entry).seq = p + 1 →
      torn p = true ∨
        (ctx.clients.getD client_id.toNat default).filter.getD
          ((ctx.ring.entries.getD (p &&& ctx.ring.mask) zero_entry)).id false
          = false) :
    (btelem_drain_packed ctx client_id buf_size torn).ret = 0 ∧
    (btelem_drain_packed ctx client_id buf_size torn).writes = [] ∧
    (btelem_drain_packed ctx client_id buf_size torn).pkt = none ∧
    (btelem_drain_packed ctx client_id buf_size torn).table = [] ∧
    (ctx.clients.getD client_id.toNat default).cursor ≤
      ((btelem_drain_packed ctx client_id buf_size torn).ctx.clients.getD
        client_id.toNat default).cursor ∧
    (∀ (ctx2 : btelem_ctx) (client_id2 : Int) (buf_size2 : Nat)
        (torn2 : Nat → Bool),
      ∀ x ∈ (btelem_drain_packed ctx2 client_id2 buf_size2 torn2).table,
        (ctx2.clients.getD client_id2.toNat default).cursor ≤ x.1) := by
  have hcid : client_id.toNat < ctx.clients.length := by
    rw [hlen]
    exact client_id_lt client_id h1
  have hlater : ∀ (ctx2 : btelem_ctx) (client_id2 : Int) (buf_size2 : Nat)
      (torn2 : Nat → Bool),
      ∀ x ∈ (btelem_drain_packed ctx2 client_id2 buf_size2 torn2).table,
        (ctx2.clients.getD client_id2.toNat default).cursor ≤ x.1 := by
    intro ctx2 client_id2 buf_size2 torn2 x hx
    refine le_trans (overwrite_adjust_cursor_ge ctx2.ring ctx2.ring.head
      (ctx2.clients.getD client_id2.toNat default)) ?_
    exact packed_table_pos_ctx ctx2 client_id2 buf_size2 torn2 x hx
  have hfr := overwrite_adjust_frame ctx.ring ctx.ring.head
    (ctx.clients.getD client_id.toNat default)
  have hcge := overwrite_adjust_cursor_ge ctx.ring ctx.ring.head
    (ctx.clients.getD client_id.toNat default)
  simp only [btelem_drain_packed]
  rw [if_neg (by rw [h1]; simp)]
  rw [if_neg (by rw [h2]; simp)]
  set c0 := ctx.clients.getD client_id.toNat default with hc0
  set c := overwrite_adjust ctx.ring ctx.ring.head c0 with hc
  set me := min ((buf_size - PACKET_HEADER_SIZE) / ENTRY_HEADER_SIZE)
    (min (ctx.ring.head - c.cursor) ctx.ring.capacity) with hme
  set w := btelem_packed_go ctx.ring ctx.ring.head torn (me % 65536)
    (PACKET_HEADER_SIZE + me * ENTRY_HEADER_SIZE)
    (buf_size - PACKET_HEADER_SIZE - me * ENTRY_HEADER_SIZE)
    (ctx.ring.head - c.cursor) c 0 0 with hw
  have hall := packed_go_all_rejected ctx.ring ctx.ring.head torn (me % 65536)
    (PACKET_HEADER_SIZE + me * ENTRY_HEADER_SIZE)
    (buf_size - PACKET_HEADER_SIZE - me * ENTRY_HEADER_SIZE)
    (ctx.ring.head - c.cursor) c 0 0
    (by rw [hfr.2.1]; exact hfa)
    (by
      intro p hp1 hp2 hp3
      have hstep := hrej p hp1 hp2 hp3
      rcases hstep with hs | hs
      · exact Or.inl hs
      · refine Or.inr ?_
        rw [hfr.1]
        exact hs)
  rw [← hw] at hall
  split_ifs with hA hB hC hD
  · refine ⟨rfl, rfl, rfl, rfl, ?_, hlater⟩
    show c0.cursor ≤ ((ctx.clients.set client_id.toNat c).getD client_id.toNat
      default).cursor
    rw [getD_set_self _ _ _ hcid]
    exact hcge
  · exact absurd hB (Nat.not_lt.mpr hbs)
  · refine ⟨rfl, rfl, rfl, rfl, ?_, hlater⟩
    show c0.cursor ≤ ((ctx.clients.set client_id.toNat c).getD client_id.toNat
      default).cursor
    rw [getD_set_self _ _ _ hcid]
    exact hcge
  · refine ⟨rfl, hall.2.2.1, rfl, hall.2.1, ?_, hlater⟩
    show c0.cursor ≤ ((ctx.clients.set client_id.toNat w.client).getD
      client_id.toNat default).cursor
    rw [getD_set_self _ _ _ hcid]
    have hmono : c.cursor ≤ w.client.cursor := by
      rw [hw]
      exact packed_go_cursor_mono _ _ _ _ _ _ _ _ _ _
    exact le_trans hcge hmono
  · exact absurd hall.1 hD
  · exact absurd hall.1 hD

/-- Two id-0 log calls, both rejected by the filter-for-id-1 consumer. -/
def c10logs0 : List btelem_log_call :=
  [{ id := 0, timestamp := 0, data := [10, 0, 0, 0] },
   { id := 0, timestamp := 1, data := [11, 0, 0, 0] }]

/-- Witness for C10: with a filter-for-id-1 consumer and two id-0 logs,
the packed drain returns 0 and writes nothing, yet the cursor advances
past both entries. -/
theorem C10_silent_consumption_witness :
    (btelem_drain_packed (c10logs0.foldl btelem_log c7ctx1) (Int.ofNat 0) 4096
      no_torn).ret = 0 ∧
    (btelem_drain_packed (c10logs0.foldl btelem_log c7ctx1) (Int.ofNat 0) 4096
      no_torn).writes = [] ∧
    ((btelem_drain_packed (c10logs0.foldl btelem_log c7ctx1) (Int.ofNat 0) 4096
      no_torn).ctx.clients.getD (Int.ofNat 0).toNat default).cursor = 2 := by
  have h := C10_silent_consumption (c10logs0.foldl btelem_log c7ctx1)
    (Int.ofNat 0) 4096 no_torn (by decide) (by decide) (by decide) (by decide)
    (by decide)
    (by
      intro p hp1 hp2 hcm
      have hh : (c10logs0.foldl btelem_log c7ctx1).ring.head = 2 := by decide
      rw [hh] at hp2
      interval_cases p
      · exact Or.inr (by decide)
      · exact Or.inr (by decide))
  exact ⟨h.1, h.2.1, by decide⟩

/-- The per-context invariant of C8: a full consumer table and, for every
active consumer, cursor at most the ring head. -/
def ctx_inv (ctx : btelem_ctx) : Prop :=
  ctx.clients.length = BTELEM_MAX_CLIENTS ∧
  ∀ c ∈ ctx.clients, c.active = true → c.cursor ≤ ctx.ring.head

/-- Replacing one consumer slot with a client whose cursor is within the
head bound preserves the invariant. -/
theorem inv_set_client (ctx : btelem_ctx) (i : Nat) (x : btelem_client)
    (hinv : ctx_inv ctx) (hx : x.active = true → x.cursor ≤ ctx.ring.head) :
    ctx_inv { ctx with clients := ctx.clients.set i x } := by
  constructor
  · show (ctx.clients.set i x).length = _
    rw [List.length_set]
    exact hinv.1
  · intro c hc hact
    rcases List.mem_or_eq_of_mem_set hc with hold | hnew
    · exact hinv.2 c hold hact
    · rw [hnew]
      exact hx (hnew ▸ hact)

/-- The consumer a valid id denotes is a member of the consumer table. -/
theorem getD_mem_clients (ctx : btelem_ctx) (client_id : Int)
    (h1 : (client_id < 0 || client_id ≥ (BTELEM_MAX_CLIENTS : Int)) = false)
    (hlen : ctx.clients.length = BTELEM_MAX_CLIENTS) :
    ctx.clients.getD client_id.toNat default ∈ ctx.clients := by
  have hcid : client_id.toNat < ctx.clients.length := by
    rw [hlen]
    exact client_id_lt client_id h1
  rw [List.getD_eq_getElem _ _ hcid]
  exact List.getElem_mem hcid

/-- C8. Every public operation preserves cursor ≤ head for every active
consumer: btelem_init establishes the invariant, btelem_register,
BTELEM_LOG, btelem_client_open (which starts the new consumer exactly at
the current head with zero counters — no historical playback),
btelem_client_close, btelem_client_set_filter, btelem_drain and
btelem_drain_packed all preserve it. -/
theorem C8_cursor_le_head :
    (∀ (cap : Nat) (ctx0 : btelem_ctx), btelem_init cap = some ctx0 →
      ctx_inv ctx0) ∧
    (∀ (ctx : btelem_ctx) (e : btelem_schema_entry), ctx_inv ctx →
      ctx_inv (btelem_register ctx e).2) ∧
    (∀ (ctx : btelem_ctx) (call : btelem_log_call), ctx_inv ctx →
      ctx_inv (btelem_log ctx call)) ∧
    (∀ (ctx : btelem_ctx) (ids : Option (List Nat)) (cnt : Nat), ctx_inv ctx →
      ctx_inv (btelem_client_open ctx ids cnt).2 ∧
      ∀ c ∈ (btelem_client_open ctx ids cnt).2.clients,
        c ∈ ctx.clients ∨
          (c.cursor = ctx.ring.head ∧ c.active = true ∧
           c.dropped = 0 ∧ c.dropped_reported = 0)) ∧
    (∀ (ctx : btelem_ctx) (client_id : Int), ctx_inv ctx →
      ctx_inv (btelem_client_close ctx client_id)) ∧
    (∀ (ctx : btelem_ctx) (client_id : Int) (ids : Option (List Nat)) (cnt : Nat),
      ctx_inv ctx → ctx_inv (btelem_client_set_filter ctx client_id ids cnt)) ∧
    (∀ (σ : Type) (ctx : btelem_ctx) (client_id : Int) (torn : Nat → Bool)
        (emit : btelem_entry → σ → σ × Bool) (user : σ), ctx_inv ctx →
      ctx_inv (btelem_drain ctx client_id torn emit user).2.1) ∧
    (∀ (ctx : btelem_ctx) (client_id : Int) (buf_size : Nat) (torn : Nat → Bool),
      ctx_inv ctx → ctx_inv (btelem_drain_packed ctx client_id buf_size torn).ctx) := by
  refine ⟨?_, ?_, ?_, ?_, ?_, ?_, ?_, ?_⟩
  · intro cap ctx0 h0
    unfold btelem_init at h0
    by_cases hp : is_power_of_2 cap = true
    case neg =>
      rw [if_neg hp] at h0
      exact Option.noConfusion h0
    rw [if_pos hp] at h0
    have := Option.some.inj h0
    rw [← this]
    constructor
    · exact List.length_replicate ..
    · intro c hc hact
      have hcd := List.eq_of_mem_replicate hc
      rw [hcd] at hact
      exact absurd hact (by decide)
  · intro ctx e hinv
    unfold btelem_register
    split_ifs <;> exact hinv
  · intro ctx call hinv
    constructor
    · exact hinv.1
    · intro c hc hact
      show c.cursor ≤ (BTELEM_LOG ctx.ring call).head
      rw [(BTELEM_LOG_shape ctx.ring call).1]
      exact le_trans (hinv.2 c hc hact) (Nat.le_succ _)
  · intro ctx ids cnt hinv
    unfold btelem_client_open
    cases hfind : ctx.clients.findIdx? (fun c => !c.active) with
    | none => exact ⟨hinv, fun c hc => Or.inl hc⟩
    | some i =>
        constructor
        · exact inv_set_client ctx i _ hinv (fun _ => Nat.le_refl _)
        · intro c hc
          rcases List.mem_or_eq_of_mem_set hc with hold | hnew
          · exact Or.inl hold
          · rw [hnew]
            exact Or.inr ⟨rfl, rfl, rfl, rfl⟩
  · intro ctx client_id hinv
    unfold btelem_client_close
    split_ifs with hv
    · exact hinv
    · exact inv_set_client ctx client_id.toNat _ hinv
        (fun hact => Bool.noConfusion hact)
  · intro ctx client_id ids cnt hinv
    unfold btelem_client_set_filter
    split_ifs with hv
    · exact hinv
    · refine inv_set_client ctx client_id.toNat _ hinv ?_
      intro hact
      show (ctx.clients.getD client_id.toNat default).cursor ≤ ctx.ring.head
      exact hinv.2 _
        (getD_mem_clients ctx client_id (Bool.eq_false_iff.mpr hv) hinv.1) hact
  · intro σ ctx client_id torn emit user hinv
    simp only [btelem_drain]
    split_ifs with hv ha
    · exact hinv
    · exact hinv
    · have h1 : (client_id < 0 || client_id ≥ (BTELEM_MAX_CLIENTS : Int)) = false :=
        Bool.eq_false_iff.mpr hv
      have hact : (ctx.clients.getD client_id.toNat default).active = true := by
        rcases Bool.eq_false_or_eq_true
            (ctx.clients.getD client_id.toNat default).active with ht | hf
        · exact ht
        · exact absurd (by rw [hf]; rfl) ha
      have hb0 : (ctx.clients.getD client_id.toNat default).cursor ≤ ctx.ring.head :=
        hinv.2 _ (getD_mem_clients ctx client_id h1 hinv.1) hact
      refine inv_set_client ctx client_id.toNat _ hinv ?_
      intro _
      exact drain_go_cursor_le ctx.ring ctx.ring.head torn emit _ _ user
        (overwrite_adjust_cursor_le ctx.ring ctx.ring.head _ hb0)
  · intro ctx client_id buf_size torn hinv
    simp only [btelem_drain_packed]
    by_cases hA : (client_id < 0 || client_id ≥ (BTELEM_MAX_CLIENTS : Int)) = true
    case pos => rw [if_pos hA]; exact hinv
    rw [if_neg hA]
    by_cases hB : (!(ctx.clients.getD client_id.toNat default).active) = true
    case pos => rw [if_pos hB]; exact hinv
    rw [if_neg hB]
    have h1 : (client_id < 0 || client_id ≥ (BTELEM_MAX_CLIENTS : Int)) = false :=
      Bool.eq_false_iff.mpr hA
    have hact : (ctx.clients.getD client_id.toNat default).active = true := by
      rcases Bool.eq_false_or_eq_true
          (ctx.clients.getD client_id.toNat default).active with ht | hf
      · exact ht
      · exact absurd (by rw [hf]; rfl) hB
    have hb0 : (ctx.clients.getD client_id.toNat default).cursor ≤ ctx.ring.head :=
      hinv.2 _ (getD_mem_clients ctx client_id h1 hinv.1) hact
    set c := overwrite_adjust ctx.ring ctx.ring.head
      (ctx.clients.getD client_id.toNat default) with hc
    have hbc : c.cursor ≤ ctx.ring.head := by
      rw [hc]
      exact overwrite_adjust_cursor_le _ _ _ hb0
    set me := min ((buf_size - PACKET_HEADER_SIZE) / ENTRY_HEADER_SIZE)
      (min (ctx.ring.head - c.cursor) ctx.ring.capacity) with hme
    set w := btelem_packed_go ctx.ring ctx.ring.head torn (me % 65536)
      (PACKET_HEADER_SIZE + me * ENTRY_HEADER_SIZE)
      (buf_size - PACKET_HEADER_SIZE - me * ENTRY_HEADER_SIZE)
      (ctx.ring.head - c.cursor) c 0 0 with hw
    have hbw : w.client.cursor ≤ ctx.ring.head := by
      rw [hw]
      exact packed_go_cursor_le _ _ _ _ _ _ _ _ _ _ hbc
    split_ifs
    · exact inv_set_client ctx client_id.toNat c hinv (fun _ => hbc)
    · exact inv_set_client ctx client_id.toNat c hinv (fun _ => hbc)
    · exact inv_set_client ctx client_id.toNat c hinv (fun _ => hbc)
    · exact inv_set_client ctx client_id.toNat w.client hinv (fun _ => hbw)
    · exact inv_set_client ctx client_id.toNat _ hinv (fun _ => hbw)
    · exact inv_set_client ctx client_id.toNat _ hinv (fun _ => hbw)

/-- Witness for C8: the invariant holds concretely after opening a consumer
on a freshly initialised 4-slot context, and btelem_drain_packed preserves
it there. -/
theorem C8_cursor_le_head_witness :
    ctx_inv (btelem_drain_packed (opened_ctx 4) 0 64 no_torn).ctx :=
  C8_cursor_le_head.2.2.2.2.2.2.2 (opened_ctx 4) 0 64 no_torn
    (by unfold ctx_inv; decide)

/-- The staging-overshoot scenario: capacity-16 ring, consumer 0 opened
with a filter accepting only id 1, then one id-0 and one id-1 entry
logged. -/
def c9ctx : btelem_ctx :=
  [({ id := 0, timestamp := 0, data := [10, 0, 0, 0] } : btelem_log_call),
   { id := 1, timestamp := 1, data := [20, 0, 0, 0] }].foldl btelem_log
    (btelem_client_open ((btelem_init (2 ^ 4)).getD default) (some [1]) 1).2

/-- C9 counterexample: with the filter-{1} consumer, logs of id 0 then id 1
and a 100-byte buffer, btelem_drain_packed returns 36, yet the single-pass
walk staged the kept payload at offsets [48, 52) — at and beyond the
returned byte count 36 (the closing memmove copies it back down, but the
staging write itself touched buf beyond buf[0..n)). -/
theorem C9_counterexample :
    (btelem_drain_packed c9ctx (Int.ofNat 0) 100 no_torn).ret = Int.ofNat 36 ∧
    (48, 4) ∈ (btelem_drain_packed c9ctx (Int.ofNat 0) 100 no_torn).writes ∧
    ¬((48 : Nat) + 4 ≤ 36) := by decide

/-- C9 (amended): every byte btelem_drain_packed writes — entry-table
records, staged payload copies, the closing memmove and the final packet
header — lies within buf[0..buf_size), and whenever the call returns n > 0
the packet header is emitted with n = sizeof(PacketHeader) +
entry_count * sizeof(EntryHeader) + payload_size and n ≤ buf_size.  (The
stronger containment within buf[0..n) claimed by the spec fails: staged
payload bytes may land beyond n before the memmove compacts them.) -/
theorem C9_write_containment (ctx : btelem_ctx) (client_id : Int)
    (buf_size : Nat) (torn : Nat → Bool) :
    (∀ x ∈ (btelem_drain_packed ctx client_id buf_size torn).writes,
       x.1 + x.2 ≤ buf_size) ∧
    (0 < (btelem_drain_packed ctx client_id buf_size torn).ret →
      ∃ p, (btelem_drain_packed ctx client_id buf_size torn).pkt = some p ∧
        (btelem_drain_packed ctx client_id buf_size torn).ret =
          Int.ofNat (PACKET_HEADER_SIZE + p.entry_count * ENTRY_HEADER_SIZE +
            p.payload_size) ∧
        PACKET_HEADER_SIZE + p.entry_count * ENTRY_HEADER_SIZE +
          p.payload_size ≤ buf_size) := by
  simp only [btelem_drain_packed]
  by_cases hA : (client_id < 0 || client_id ≥ (BTELEM_MAX_CLIENTS : Int)) = true
  case pos =>
    rw [if_pos hA]
    exact ⟨fun x hx => absurd hx (List.not_mem_nil x),
      fun hr => absurd (show (0 : Int) < -1 from hr) (by decide)⟩
  rw [if_neg hA]
  by_cases hB : (!(ctx.clients.getD client_id.toNat default).active) = true
  case pos =>
    rw [if_pos hB]
    exact ⟨fun x hx => absurd hx (List.not_mem_nil x),
      fun hr => absurd (show (0 : Int) < -1 from hr) (by decide)⟩
  rw [if_neg hB]
  set c := overwrite_adjust ctx.ring ctx.ring.head
    (ctx.clients.getD client_id.toNat default) with hc
  by_cases h3 : c.cursor ≥ ctx.ring.head
  case pos =>
    rw [if_pos h3]
    exact ⟨fun x hx => absurd hx (List.not_mem_nil x),
      fun hr => absurd (show (0 : Int) < 0 from hr) (by decide)⟩
  rw [if_neg h3]
  by_cases h4 : buf_size < PACKET_HEADER_SIZE
  case pos =>
    rw [if_pos h4]
    exact ⟨fun x hx => absurd hx (List.not_mem_nil x),
      fun hr => absurd (show (0 : Int) < -1 from hr) (by decide)⟩
  rw [if_neg h4]
  set me := min ((buf_size - PACKET_HEADER_SIZE) / ENTRY_HEADER_SIZE)
    (min (ctx.ring.head - c.cursor) ctx.ring.capacity) with hme
  by_cases h5 : me = 0
  case pos =>
    rw [if_pos h5]
    exact ⟨fun x hx => absurd hx (List.not_mem_nil x),
      fun hr => absurd (show (0 : Int) < 0 from hr) (by decide)⟩
  rw [if_neg h5]
  set w := btelem_packed_go ctx.ring ctx.ring.head torn (me % 65536)
    (PACKET_HEADER_SIZE + me * ENTRY_HEADER_SIZE)
    (buf_size - PACKET_HEADER_SIZE - me * ENTRY_HEADER_SIZE)
    (ctx.ring.head - c.cursor) c 0 0 with hw
  have hbuf : PACKET_HEADER_SIZE ≤ buf_size := Nat.le_of_not_lt h4
  have hA1 : me ≤ (buf_size - PACKET_HEADER_SIZE) / ENTRY_HEADER_SIZE := by
    rw [hme]
    exact min_le_left _ _
  have hA2 : me * ENTRY_HEADER_SIZE ≤ buf_size - PACKET_HEADER_SIZE :=
    le_trans (Nat.mul_le_mul_right _ hA1) (Nat.div_mul_le_self _ _)
  have hsum : PACKET_HEADER_SIZE + me * ENTRY_HEADER_SIZE +
      (buf_size - PACKET_HEADER_SIZE - me * ENTRY_HEADER_SIZE) = buf_size := by
    omega
  have hwb : ∀ x ∈ w.writes, x.1 + x.2 ≤ buf_size := by
    intro x hx
    rw [hw] at hx
    have hb := packed_go_writes_bound ctx.ring ctx.ring.head torn (me % 65536)
      (PACKET_HEADER_SIZE + me * ENTRY_HEADER_SIZE)
      (buf_size - PACKET_HEADER_SIZE - me * ENTRY_HEADER_SIZE)
      (by
        have := Nat.mod_le me 65536
        have := Nat.mul_le_mul_right ENTRY_HEADER_SIZE (Nat.mod_le me 65536)
        omega)
      (ctx.ring.head - c.cursor) c 0 0 x hx
    omega
  have hiv := packed_go_inv ctx.ring ctx.ring.head torn (me % 65536)
    (PACKET_HEADER_SIZE + me * ENTRY_HEADER_SIZE)
    (buf_size - PACKET_HEADER_SIZE - me * ENTRY_HEADER_SIZE)
    (ctx.ring.head - c.cursor) c 0 0 (Nat.zero_le _) (Nat.zero_le _)
  rw [← hw] at hiv
  have hfit : PACKET_HEADER_SIZE + w.entry_count * ENTRY_HEADER_SIZE +
      w.payload_offset ≤ buf_size := by
    have h1 : w.entry_count * ENTRY_HEADER_SIZE ≤ me * ENTRY_HEADER_SIZE :=
      Nat.mul_le_mul_right _ (le_trans hiv.1 (Nat.mod_le me 65536))
    have h2 := hiv.2
    omega
  by_cases h6 : w.entry_count = 0
  case pos =>
    rw [if_pos h6]
    exact ⟨hwb, fun hr => absurd (show (0 : Int) < 0 from hr) (by decide)⟩
  rw [if_neg h6]
  constructor
  · intro x hx
    have hx' : x ∈ w.writes ++
        ((if w.entry_count ≠ me then
            [(PACKET_HEADER_SIZE + w.entry_count * ENTRY_HEADER_SIZE,
              w.payload_offset)]
          else []) ++ [(0, PACKET_HEADER_SIZE)]) := by
      simpa using hx
    rcases List.mem_append.mp hx' with hw1 | hmv
    · exact hwb x hw1
    rcases List.mem_append.mp hmv with hm1 | hm2
    · by_cases hne : w.entry_count ≠ me
      · rw [if_pos hne] at hm1
        rcases List.mem_singleton.mp hm1 with hq
        rw [hq]
        exact hfit
      · rw [if_neg hne] at hm1
        exact absurd hm1 (List.not_mem_nil x)
    · rcases List.mem_singleton.mp hm2 with hq
      rw [hq]
      show 0 + PACKET_HEADER_SIZE ≤ buf_size
      omega
  · intro hr
    exact ⟨_, rfl, rfl, hfit⟩

/-- Witness for C9's amended containment bound at the staging-overshoot
scenario: every write ends within the 100-byte buffer, and the returned 36
bytes match the packet header fields and fit the buffer. -/
theorem C9_write_containment_witness :
    (∀ x ∈ (btelem_drain_packed c9ctx (Int.ofNat 0) 100 no_torn).writes,
       x.1 + x.2 ≤ 100) ∧
    (∃ p, (btelem_drain_packed c9ctx (Int.ofNat 0) 100 no_torn).pkt = some p ∧
      (btelem_drain_packed c9ctx (Int.ofNat 0) 100 no_torn).ret =
        Int.ofNat (PACKET_HEADER_SIZE + p.entry_count * ENTRY_HEADER_SIZE +
          p.payload_size) ∧
      PACKET_HEADER_SIZE + p.entry_count * ENTRY_HEADER_SIZE +
        p.payload_size ≤ 100) :=
  ⟨(C9_write_containment c9ctx (Int.ofNat 0) 100 no_torn).1,
   (C9_write_containment c9ctx (Int.ofNat 0) 100 no_torn).2 (by decide)⟩

/-- The C expression sizeof(struct btelem_schema_header) = 3 (packed). -/
def SCHEMA_HEADER_SIZE : Nat := 3

/-- The C expression sizeof(struct btelem_schema_wire) = 1318 (packed). -/
def SCHEMA_WIRE_SIZE : Nat := 1318

/-- The C expression sizeof(struct btelem_field_wire) = 70 (packed). -/
def FIELD_WIRE_SIZE : Nat := 70

/-- The C expression sizeof(struct btelem_enum_wire) = 2053 (packed). -/
def ENUM_WIRE_SIZE : Nat := 2053

/-- The C expression sizeof(struct btelem_bitfield_wire) = 549 (packed). -/
def BITFIELD_WIRE_SIZE : Nat := 549

/-- The enum btelem_type constant BTELEM_ENUM = 12. -/
def BTELEM_ENUM : Nat := 12

/-- The enum btelem_type constant BTELEM_BITFIELD = 13. -/
def BTELEM_BITFIELD : Nat := 13

/-- A uint16_t stored into the packed wire format, as two bytes. -/
def u16 (v : Nat) : List Nat := [v % 256, v / 256 % 256]

/-- The net bytes of strncpy(dst, src, n) into a cap-byte zeroed char
array: the bytes of src up to its first NUL, at most n of them, then
zero padding up to cap. -/
def strField (src : List Nat) (n cap : Nat) : List Nat :=
  ((src.takeWhile (fun b => b != 0)).take n) ++
    List.replicate (cap - ((src.takeWhile (fun b => b != 0)).take n).length) 0

/-- strField behind the C NULL-pointer check: a null string leaves the
zeroed array untouched. -/
def strFieldOpt (src : Option (List Nat)) (n cap : Nat) : List Nat :=
  match src with
  | some s => strField s n cap
  | none => List.replicate cap 0

/-- The clamped field count fc = min(field_count, BTELEM_MAX_FIELDS) used
by every serialiser loop. -/
def entry_fc (e : btelem_schema_entry) : Nat :=
  min e.field_count BTELEM_MAX_FIELDS

/-- Indices of fields that contribute an enum metadata record: type is
BTELEM_ENUM and enum_def is non-null. -/
def enum_fields (e : btelem_schema_entry) : List Nat :=
  (List.range (entry_fc e)).filter (fun f =>
    (e.fields.getD f default).type == BTELEM_ENUM &&
    (e.fields.getD f default).enum_def.isSome)

/-- Indices of fields that contribute a bitfield metadata record. -/
def bitfield_fields (e : btelem_schema_entry) : List Nat :=
  (List.range (entry_fc e)).filter (fun f =>
    (e.fields.getD f default).type == BTELEM_BITFIELD &&
    (e.fields.getD f default).bitfield_def.isSome)

/-- The non-null schema slots visited by the loops for i < schema_count,
in index order. -/
def present_entries (ctx : btelem_ctx) : List btelem_schema_entry :=
  (List.range ctx.schema_count).filterMap (fun i => ctx.schema.getD i none)

/-- The count variable of both serialisers: registered non-null entries. -/
def ctx_entry_count (ctx : btelem_ctx) : Nat :=
  (present_entries ctx).length

/-- The enum_count variable: enum fields across all registered schemas. -/
def ctx_enum_count (ctx : btelem_ctx) : Nat :=
  ((present_entries ctx).map (fun e => (enum_fields e).length)).sum

/-- The bitfield_count variable. -/
def ctx_bitfield_count (ctx : btelem_ctx) : Nat :=
  ((present_entries ctx).map (fun e => (bitfield_fields e).length)).sum

/-- The needed byte count computed by btelem_schema_serialize. -/
def schema_needed (ctx : btelem_ctx) : Nat :=
  SCHEMA_HEADER_SIZE + ctx_entry_count ctx * SCHEMA_WIRE_SIZE + 2 +
  ctx_enum_count ctx * ENUM_WIRE_SIZE + 2 +
  ctx_bitfield_count ctx * BITFIELD_WIRE_SIZE

/-- One struct btelem_field_wire as written by the serialiser loops:
strncpy of the field name into the zeroed 64-byte array, then offset,
size, type and count. -/
def field_wire_bytes (fd : btelem_field_def) : List Nat :=
  strField fd.name (BTELEM_NAME_MAX - 1) BTELEM_NAME_MAX ++
  u16 fd.offset ++ u16 fd.size ++ [fd.type % 256, fd.count % 256]

/-- One struct btelem_schema_wire as filled in place by the buffered
btelem_schema_serialize over the memset background: id, payload_size, the
unclamped field_count, name, optional description, then the first fc field
records with the remaining field slots left zeroed. -/
def schema_wire_bytes (e : btelem_schema_entry) : List Nat :=
  u16 e.id ++ u16 e.payload_size ++ u16 e.field_count ++
  strField e.name (BTELEM_NAME_MAX - 1) BTELEM_NAME_MAX ++
  strFieldOpt e.description (BTELEM_DESC_MAX - 1) BTELEM_DESC_MAX ++
  (List.range BTELEM_MAX_FIELDS).flatMap (fun f =>
    if f < entry_fc e then field_wire_bytes (e.fields.getD f default)
    else List.replicate FIELD_WIRE_SIZE 0)

/-- The clamped label count lc of one enum metadata record. -/
def enum_wire_lc (e : btelem_schema_entry) (f : Nat) : Nat :=
  min ((e.fields.getD f default).enum_def.getD default).label_count
    BTELEM_ENUM_MAX_VALUES

/-- One struct btelem_enum_wire as filled in place by the buffered
serialiser: schema id, field index, clamped label count, then the first lc
labels strncpy-d into the zeroed 64 x 32 label array. -/
def enum_wire_bytes (e : btelem_schema_entry) (f : Nat) : List Nat :=
  u16 e.id ++ u16 f ++ [enum_wire_lc e f] ++
  (List.range BTELEM_ENUM_MAX_VALUES).flatMap (fun li =>
    if li < enum_wire_lc e f then
      strField (((e.fields.getD f default).enum_def.getD default).labels.getD li [])
        (BTELEM_ENUM_LABEL_MAX - 1) BTELEM_ENUM_LABEL_MAX
    else List.replicate BTELEM_ENUM_LABEL_MAX 0)

/-- The clamped bit count bc of one bitfield metadata record. -/
def bitfield_wire_bc (e : btelem_schema_entry) (f : Nat) : Nat :=
  min ((e.fields.getD f default).bitfield_def.getD default).bit_count
    BTELEM_BITFIELD_MAX_BITS

/-- static serialize_one_bitfield, shared by both serialisers: memset the
wire record, then schema id, field index, clamped bit count, the named
bits (NULL names left zeroed) and the start and width byte arrays. -/
def serialize_one_bitfield (e : btelem_schema_entry) (f : Nat) : List Nat :=
  u16 e.id ++ u16 f ++ [bitfield_wire_bc e f] ++
  (List.range BTELEM_BITFIELD_MAX_BITS).flatMap (fun bi =>
    if bi < bitfield_wire_bc e f then
      strFieldOpt (((e.fields.getD f default).bitfield_def.getD default).bits.getD
          bi default).name (BTELEM_BIT_NAME_MAX - 1) BTELEM_BIT_NAME_MAX
    else List.replicate BTELEM_BIT_NAME_MAX 0) ++
  (List.range BTELEM_BITFIELD_MAX_BITS).map (fun bi =>
    if bi < bitfield_wire_bc e f then
      (((e.fields.getD f default).bitfield_def.getD default).bits.getD
        bi default).start % 256
    else 0) ++
  (List.range BTELEM_BITFIELD_MAX_BITS).map (fun bi =>
    if bi < bitfield_wire_bc e f then
      (((e.fields.getD f default).bitfield_def.getD default).bits.getD
        bi default).width % 256
    else 0)

/-- The needed-byte blob written by the buffered btelem_schema_serialize:
header, the wire records of the registered entries in slot order, the enum
section behind its count, then the bitfield section behind its count. -/
def schema_blob (ctx : btelem_ctx) : List Nat :=
  [ctx.endianness % 256] ++ u16 (ctx_entry_count ctx) ++
  (present_entries ctx).flatMap schema_wire_bytes ++
  u16 (ctx_enum_count ctx) ++
  (present_entries ctx).flatMap (fun e =>
    (enum_fields e).flatMap (fun f => enum_wire_bytes e f)) ++
  u16 (ctx_bitfield_count ctx) ++
  (present_entries ctx).flatMap (fun e =>
    (bitfield_fields e).flatMap (fun f => serialize_one_bitfield e f))

/-- btelem_schema_serialize: none stands for the buf = NULL size query;
with a buffer the first needed bytes are overwritten (memset plus fills)
and the tail beyond needed is retained, or -1 when the buffer is short. -/
def btelem_schema_serialize (ctx : btelem_ctx) (buf : Option (List Nat)) :
    Int × Option (List Nat) :=
  match buf with
  | none => (Int.ofNat (schema_needed ctx), none)
  | some b =>
      if b.length < schema_needed ctx then (-1, some b)
      else (Int.ofNat (schema_needed ctx),
            some (schema_blob ctx ++ b.drop (schema_needed ctx)))

/-- static serialize_one_entry used by the streaming serialiser: memset a
local wire struct then fill it; identical writes to the in-place loop of
the buffered serialiser. -/
def serialize_one_entry (e : btelem_schema_entry) : List Nat :=
  u16 e.id ++ u16 e.payload_size ++ u16 e.field_count ++
  strField e.name (BTELEM_NAME_MAX - 1) BTELEM_NAME_MAX ++
  strFieldOpt e.description (BTELEM_DESC_MAX - 1) BTELEM_DESC_MAX ++
  (List.range BTELEM_MAX_FIELDS).flatMap (fun f =>
    if f < entry_fc e then field_wire_bytes (e.fields.getD f default)
    else List.replicate FIELD_WIRE_SIZE 0)

/-- static serialize_one_enum used by the streaming serialiser; on non-null
labels its NULL-label guard is vacuous and the writes match the buffered
loop byte for byte. -/
def serialize_one_enum (e : btelem_schema_entry) (f : Nat) : List Nat :=
  u16 e.id ++ u16 f ++ [enum_wire_lc e f] ++
  (List.range BTELEM_ENUM_MAX_VALUES).flatMap (fun li =>
    if li < enum_wire_lc e f then
      strField (((e.fields.getD f default).enum_def.getD default).labels.getD li [])
        (BTELEM_ENUM_LABEL_MAX - 1) BTELEM_ENUM_LABEL_MAX
    else List.replicate BTELEM_ENUM_LABEL_MAX 0)

/-- The chunk sequence btelem_schema_stream hands to its callback, in
program order: the 3-byte header, one wire record per registered entry,
the 2-byte enum count, one record per enum field, the 2-byte bitfield
count, one record per bitfield field. -/
def schema_chunks (ctx : btelem_ctx) : List (List Nat) :=
  [[ctx.endianness % 256] ++ u16 (ctx_entry_count ctx)] ++
  (present_entries ctx).map serialize_one_entry ++
  [u16 (ctx_enum_count ctx)] ++
  (present_entries ctx).flatMap (fun e =>
    (enum_fields e).map (fun f => serialize_one_enum e f)) ++
  [u16 (ctx_bitfield_count ctx)] ++
  (present_entries ctx).flatMap (fun e =>
    (bitfield_fields e).map (fun f => serialize_one_bitfield e f))

/-- The emit-and-abort loop of btelem_schema_stream: a non-zero callback
return aborts the whole call with -1, otherwise the chunk size is added to
total.  The third component is the ghost trace of chunks handed to the
callback. -/
def stream_run {σ : Type} (emit : List Nat → σ → σ × Bool) :
    List (List Nat) → σ → Nat → Int × σ × List (List Nat)
  | [], s, total => (Int.ofNat total, s, [])
  | ch :: rest, s, total =>
      let es := emit ch s
      if es.2 then (-1, es.1, [ch])
      else
        let r := stream_run emit rest es.1 (total + ch.length)
        (r.1, r.2.1, ch :: r.2.2)

/-- btelem_schema_stream: serialize the schema as a sequence of callback
chunks, returning the total byte count. -/
def btelem_schema_stream {σ : Type} (ctx : btelem_ctx)
    (emit : List Nat → σ → σ × Bool) (user : σ) :
    Int × σ × List (List Nat) :=
  stream_run emit (schema_chunks ctx) user 0

/-- A schema-chunk callback that collects every chunk and never aborts. -/
def collect_chunks : List Nat → List (List Nat) → List (List Nat) × Bool :=
  fun ch s => (s ++ [ch], false)

/-- strField always fills its cap-byte array when the copy limit n is
within cap. -/
theorem strField_length (src : List Nat) (n cap : Nat) (h : n ≤ cap) :
    (strField src n cap).length = cap := by
  unfold strField
  rw [List.length_append, List.length_replicate]
  have h1 : ((src.takeWhile (fun b => b != 0)).take n).length ≤ n := by
    rw [List.length_take]
    exact min_le_left _ _
  omega

/-- strFieldOpt always fills its cap-byte array when n is within cap. -/
theorem strFieldOpt_length (src : Option (List Nat)) (n cap : Nat) (h : n ≤ cap) :
    (strFieldOpt src n cap).length = cap := by
  cases src with
  | none => exact List.length_replicate ..
  | some s => exact strField_length s n cap h

/-- Length of a flatMap whose pieces all have the same length. -/
theorem length_flatMap_const {α : Type} (l : List α) (g : α → List Nat) (k : Nat)
    (h : ∀ a ∈ l, (g a).length = k) : (l.flatMap g).length = l.length * k := by
  induction l with
  | nil => simp
  | cons a t ih =>
      rw [List.flatMap_cons, List.length_append, h a (List.mem_cons_self a t),
        ih (fun x hx => h x (List.mem_cons_of_mem a hx)), List.length_cons]
      ring

/-- Pulling a common factor out of a summed map. -/
theorem sum_map_len_mul {α : Type} (l : List α) (f : α → Nat) (k : Nat) :
    (l.map (fun a => f a * k)).sum = (l.map f).sum * k := by
  induction l with
  | nil => simp
  | cons a t ih =>
      rw [List.map_cons, List.sum_cons, ih, List.map_cons, List.sum_cons,
        Nat.add_mul]

/-- Flattening per-element mapped chunks is the nested flatMap. -/
theorem flatten_flatMap_map {α β : Type} (l : List α) (h : α → List β)
    (g : α → β → List Nat) :
    (l.flatMap (fun a => (h a).map (fun b => g a b))).flatten =
      l.flatMap (fun a => (h a).flatMap (fun b => g a b)) := by
  induction l with
  | nil => rfl
  | cons a t ih =>
      rw [List.flatMap_cons, List.flatten_append, ih, List.flatMap_cons]
      rfl

/-- Every field wire record is 70 bytes. -/
theorem field_wire_bytes_length (fd : btelem_field_def) :
    (field_wire_bytes fd).length = FIELD_WIRE_SIZE := by
  unfold field_wire_bytes
  rw [List.length_append, List.length_append, List.length_append,
    strField_length _ _ _ (by decide)]
  rfl

/-- Every schema wire record is 1318 bytes. -/
theorem schema_wire_bytes_length (e : btelem_schema_entry) :
    (schema_wire_bytes e).length = SCHEMA_WIRE_SIZE := by
  unfold schema_wire_bytes
  rw [List.length_append, List.length_append, List.length_append,
    List.length_append, List.length_append,
    strField_length _ _ _ (by decide), strFieldOpt_length _ _ _ (by decide),
    length_flatMap_const _ _ FIELD_WIRE_SIZE ?_]
  · rfl
  · intro f hf
    by_cases hc : f < entry_fc e
    · rw [if_pos hc]
      exact field_wire_bytes_length _
    · rw [if_neg hc]
      exact List.length_replicate ..

/-- Every enum wire record is 2053 bytes. -/
theorem enum_wire_bytes_length (e : btelem_schema_entry) (f : Nat) :
    (enum_wire_bytes e f).length = ENUM_WIRE_SIZE := by
  unfold enum_wire_bytes
  rw [List.length_append, List.length_append, List.length_append,
    length_flatMap_const _ _ BTELEM_ENUM_LABEL_MAX ?_]
  · rfl
  · intro li hli
    by_cases hc : li < enum_wire_lc e f
    · rw [if_pos hc]
      exact strField_length _ _ _ (by decide)
    · rw [if_neg hc]
      exact List.length_replicate ..

/-- Every bitfield wire record is 549 bytes. -/
theorem serialize_one_bitfield_length (e : btelem_schema_entry) (f : Nat) :
    (serialize_one_bitfield e f).length = BITFIELD_WIRE_SIZE := by
  unfold serialize_one_bitfield
  rw [List.length_append, List.length_append, List.length_append,
    List.length_append, List.length_append,
    length_flatMap_const _ _ BTELEM_BIT_NAME_MAX ?_,
    List.length_map, List.length_map]
  · rfl
  · intro bi hbi
    by_cases hc : bi < bitfield_wire_bc e f
    · rw [if_pos hc]
      exact strFieldOpt_length _ _ _ (by decide)
    · rw [if_neg hc]
      exact List.length_replicate ..

/-- The stream helper and the buffered in-place entry loop write the same
bytes. -/
theorem serialize_one_entry_eq : serialize_one_entry = schema_wire_bytes :=
  rfl

/-- The stream helper and the buffered in-place enum loop write the same
bytes on non-null labels. -/
theorem serialize_one_enum_eq : serialize_one_enum = enum_wire_bytes :=
  rfl

/-- The buffered blob is exactly the needed bytes long. -/
theorem schema_blob_length (ctx : btelem_ctx) :
    (schema_blob ctx).length = schema_needed ctx := by
  unfold schema_blob schema_needed
  rw [List.length_append, List.length_append, List.length_append,
    List.length_append, List.length_append, List.length_append]
  rw [length_flatMap_const _ _ SCHEMA_WIRE_SIZE
    (fun e _ => schema_wire_bytes_length e)]
  have he : ((present_entries ctx).flatMap (fun e =>
      (enum_fields e).flatMap (fun f => enum_wire_bytes e f))).length =
      ctx_enum_count ctx * ENUM_WIRE_SIZE := by
    rw [List.length_flatMap]
    simp only [Function.comp_def]
    have h1 : ((present_entries ctx).map (fun e =>
        ((enum_fields e).flatMap (fun f => enum_wire_bytes e f)).length)) =
        ((present_entries ctx).map (fun e =>
          (enum_fields e).length * ENUM_WIRE_SIZE)) := by
      refine List.map_congr_left ?_
      intro e _
      exact length_flatMap_const _ _ _ (fun f _ => enum_wire_bytes_length e f)
    rw [h1, sum_map_len_mul]
    rfl
  have hb : ((present_entries ctx).flatMap (fun e =>
      (bitfield_fields e).flatMap (fun f => serialize_one_bitfield e f))).length =
      ctx_bitfield_count ctx * BITFIELD_WIRE_SIZE := by
    rw [List.length_flatMap]
    simp only [Function.comp_def]
    have h1 : ((present_entries ctx).map (fun e =>
        ((bitfield_fields e).flatMap (fun f => serialize_one_bitfield e f)).length)) =
        ((present_entries ctx).map (fun e =>
          (bitfield_fields e).length * BITFIELD_WIRE_SIZE)) := by
      refine List.map_congr_left ?_
      intro e _
      exact length_flatMap_const _ _ _ (fun f _ => serialize_one_bitfield_length e f)
    rw [h1, sum_map_len_mul]
    rfl
  rw [he, hb]
  simp only [u16, List.length_cons, List.length_nil]
  unfold SCHEMA_HEADER_SIZE SCHEMA_WIRE_SIZE ENUM_WIRE_SIZE BITFIELD_WIRE_SIZE
  unfold ctx_entry_count
  omega

/-- Concatenating the stream chunks yields the buffered blob. -/
theorem schema_chunks_flatten (ctx : btelem_ctx) :
    (schema_chunks ctx).flatten = schema_blob ctx := by
  unfold schema_chunks schema_blob
  rw [List.flatten_append, List.flatten_append, List.flatten_append,
    List.flatten_append, List.flatten_append]
  rw [show ((present_entries ctx).map serialize_one_entry).flatten =
      (present_entries ctx).flatMap serialize_one_entry from rfl]
  rw [flatten_flatMap_map, flatten_flatMap_map]
  rw [serialize_one_entry_eq, serialize_one_enum_eq]
  simp only [List.flatten_cons, List.flatten_nil, List.append_nil,
    List.append_assoc]

/-- A non-aborting callback sees every chunk, and the loop returns the
accumulated total of their sizes. -/
theorem stream_run_no_abort {σ : Type} (emit : List Nat → σ → σ × Bool)
    (hna : ∀ ch s, (emit ch s).2 = false) :
    ∀ (chs : List (List Nat)) (s : σ) (t : Nat),
      (stream_run emit chs s t).1 = Int.ofNat (t + (chs.map List.length).sum) ∧
      (stream_run emit chs s t).2.2 = chs := by
  intro chs
  induction chs with
  | nil =>
      intro s t
      constructor
      · show Int.ofNat t = _
        rw [List.map_nil, List.sum_nil, Nat.add_zero]
      · rfl
  | cons ch rest ih =>
      intro s t
      simp only [stream_run]
      rw [hna ch s]
      simp only [Bool.false_eq_true, if_false]
      constructor
      · show (stream_run emit rest (emit ch s).1 (t + ch.length)).1 = _
        rw [(ih (emit ch s).1 (t + ch.length)).1, List.map_cons, List.sum_cons]
        congr 1
        omega
      · show ch :: (stream_run emit rest (emit ch s).1 (t + ch.length)).2.2 = _
        rw [(ih (emit ch s).1 (t + ch.length)).2]

/-- C6. Schema serialisation is deterministic and the two forms agree: the
bytes the buffered btelem_schema_serialize writes into its first needed
positions do not depend on the previous buffer contents (so repeated calls
produce identical bytes), a non-aborted btelem_schema_stream returns
exactly the byte total that the buf = NULL size query reports, and
concatenating all chunks handed to the stream callback reproduces the
buffered output byte for byte. -/
theorem C6_schema_roundtrip :
    (∀ (ctx : btelem_ctx) (b1 b2 : List Nat),
      schema_needed ctx ≤ b1.length → schema_needed ctx ≤ b2.length →
      (btelem_schema_serialize ctx (some b1)).1 = Int.ofNat (schema_needed ctx) ∧
      ((btelem_schema_serialize ctx (some b1)).2.getD []).take (schema_needed ctx) =
        ((btelem_schema_serialize ctx (some b2)).2.getD []).take (schema_needed ctx)) ∧
    (∀ (σ : Type) (ctx : btelem_ctx) (emit : List Nat → σ → σ × Bool) (user : σ),
      (∀ ch s, (emit ch s).2 = false) →
      (btelem_schema_stream ctx emit user).1 = (btelem_schema_serialize ctx none).1 ∧
      (btelem_schema_stream ctx emit user).2.2.flatten =
        ((btelem_schema_serialize ctx
          (some (List.replicate (schema_needed ctx) 0))).2.getD []).take
            (schema_needed ctx)) := by
  have hserial : ∀ (ctx : btelem_ctx) (b : List Nat),
      schema_needed ctx ≤ b.length →
      btelem_schema_serialize ctx (some b) =
        (Int.ofNat (schema_needed ctx),
         some (schema_blob ctx ++ b.drop (schema_needed ctx))) := by
    intro ctx b hb
    show (if b.length < schema_needed ctx then _ else _) = _
    rw [if_neg (by omega)]
  have htake : ∀ (ctx : btelem_ctx) (b : List Nat),
      (schema_blob ctx ++ b).take (schema_needed ctx) = schema_blob ctx := by
    intro ctx b
    rw [← schema_blob_length ctx]
    exact List.take_left _ _
  constructor
  · intro ctx b1 b2 h1 h2
    rw [hserial ctx b1 h1, hserial ctx b2 h2]
    constructor
    · rfl
    · show (schema_blob ctx ++ b1.drop (schema_needed ctx)).take (schema_needed ctx)
        = (schema_blob ctx ++ b2.drop (schema_needed ctx)).take (schema_needed ctx)
      rw [htake, htake]
  · intro σ ctx emit user hna
    have hrun := stream_run_no_abort emit hna (schema_chunks ctx) user 0
    have hlen : ((schema_chunks ctx).map List.length).sum = schema_needed ctx := by
      rw [← List.length_flatten, schema_chunks_flatten, schema_blob_length]
    constructor
    · show (stream_run emit (schema_chunks ctx) user 0).1 = _
      rw [hrun.1, hlen, Nat.zero_add]
      rfl
    · show (stream_run emit (schema_chunks ctx) user 0).2.2.flatten = _
      rw [hrun.2, schema_chunks_flatten,
        hserial ctx (List.replicate (schema_needed ctx) 0)
          (by rw [List.length_replicate])]
      show _ = (schema_blob ctx ++
        (List.replicate (schema_needed ctx) 0).drop (schema_needed ctx)).take
          (schema_needed ctx)
      rw [htake]

/-- The schema_roundtrip seed scenario descriptor: one schema named test
with a single u32 field named value. -/
def c6entry : btelem_schema_entry :=
  { id := 0, name := [116, 101, 115, 116], description := none
    payload_size := 4, field_count := 1
    fields := [{ name := [118, 97, 108, 117, 101], offset := 0, size := 4
                 type := 2, count := 1, enum_def := none
                 bitfield_def := none }] }

/-- A fresh capacity-16 context with the test schema registered. -/
def c6ctx : btelem_ctx :=
  (btelem_register ((btelem_init (2 ^ 4)).getD default) c6entry).2

/-- Witness for C6 at the schema_roundtrip scenario: 1325 needed bytes,
serialisation into two different oversized buffers agrees, and the stream
total and chunk concatenation match the buffered form. -/
theorem C6_schema_roundtrip_witness :
    ((btelem_schema_serialize c6ctx (some (List.replicate 1325 7))).1 =
        Int.ofNat (schema_needed c6ctx) ∧
      ((btelem_schema_serialize c6ctx (some (List.replicate 1325 7))).2.getD
        []).take (schema_needed c6ctx) =
        ((btelem_schema_serialize c6ctx (some (List.replicate 1400 9))).2.getD
          []).take (schema_needed c6ctx)) ∧
    ((btelem_schema_stream c6ctx collect_chunks []).1 =
        (btelem_schema_serialize c6ctx none).1 ∧
      (btelem_schema_stream c6ctx collect_chunks []).2.2.flatten =
        ((btelem_schema_serialize c6ctx
          (some (List.replicate (schema_needed c6ctx) 0))).2.getD []).take
            (schema_needed c6ctx)) :=
  ⟨C6_schema_roundtrip.1 c6ctx (List.replicate 1325 7) (List.replicate 1400 9)
      (by rw [List.length_replicate]; decide)
      (by rw [List.length_replicate]; decide),
   C6_schema_roundtrip.2 (List (List Nat)) c6ctx collect_chunks []
      (fun ch s => rfl)⟩
